import Mathlib

/-!
Verification development for the `aduket` mock HTTP server
(`aduket.go`, `expectation.go`).

The Go code is embedded shallowly:

* `Expectation`, `CapturedRequest`, `Server` mirror the Go structs field by
  field (Go `int`/`int64` fields that can be set to arbitrary values become
  `Int`; the `MatchedTimes` counter, which only ever counts up from zero,
  becomes `Nat`; byte slices become `String`).
* The `http.Handler` closure built by `Server.handler` becomes the pure
  function `Server.handler : Server → Request → HandlerResult` returning the
  mutated server, the response written, and the list of observer
  (`OnRequest`) invocations.  Go panics raised by a caller-supplied dynamic
  responder are embedded as `Except String`: a responder either returns the
  response it wrote or a panic message; the `defer`/`recover` boundary of the
  Go handler becomes the `Except.error` branch producing the 500 response.
* `http.MaxBytesReader` + `io.ReadAll` become the byte-length comparison
  `oversized`: reading fails exactly when the body is longer than the
  configured positive limit.
-/

/-- An incoming HTTP request as the handler sees it: method, URL path, parsed
query values (`url.Values` is a map from key to list of values) and the body
bytes. -/
structure Request where
  method : String
  urlPath : String
  query : List (String × List String)
  body : String

/-- The response ultimately written to the `http.ResponseWriter`: status code,
body bytes, and the header key/value pairs added. -/
structure HttpResponse where
  status : Nat
  body : String
  headers : List (String × String)

/-- `Responder` embeds Go's `func(w http.ResponseWriter, r *http.Request)`:
it either returns the response it wrote, or a panic message
(`Except.error`), which the handler's recovery boundary turns into a 500. -/
def Responder : Type := Request → Except String HttpResponse

/-- Go struct `Expectation` (expectation.go), field for field.  `Times` is an
`Int` because `TimesSet` accepts any Go `int`; `MatchedTimes` is a `Nat`
since it starts at zero and is only ever incremented. -/
structure Expectation where
  method : String
  path : String
  statusCode : Nat
  body : String
  header : List (String × List String)
  times : Int
  matchedTimes : Nat
  delayTime : Nat
  func : Option Responder
  queryParams : List (String × String)

/-- The zero `Expectation`, used as the default for positional list reads. -/
def defaultExpectation : Expectation :=
  { method := "", path := "", statusCode := 0, body := "", header := [],
    times := 0, matchedTimes := 0, delayTime := 0, func := none, queryParams := [] }

instance : Inhabited Expectation := ⟨defaultExpectation⟩

/-- Go struct `CapturedRequest`: the request metadata and body actually read,
plus the response status/body recorded for it. -/
structure CapturedRequest where
  method : String
  urlPath : String
  query : List (String × List String)
  bodyContent : String
  statusCode : Nat
  responseBody : String

/-- Go struct `Server`: the ordered expectation list, the captured-request
ledger, the body-size limit, and the optional `OnRequest` observer callback.
The transport fields (`httptest.Server`, `Upgrader`, the mutex) are the
external collaborators and carry no matching state. -/
structure Server where
  expectations : List Expectation
  requests : List CapturedRequest
  maxRequestBodySize : Int
  onRequest : Option (CapturedRequest → Unit)

/-- `url.Values.Get`: the first value recorded for the key, `""` if absent. -/
def queryGet (q : List (String × List String)) (k : String) : String :=
  match q.lookup k with
  | some (v :: _) => v
  | _ => ""

/-- Go `matchExpectation` (aduket.go lines 192-217): method equality when the
expectation's method is non-empty, path equality when non-empty, repeat cap
not exhausted (`Times > 0 && MatchedTimes >= Times` rejects), and every
required query parameter string-equal in the request URL. -/
def matchExpectation (e : Expectation) (r : Request) : Bool :=
  if e.method ≠ "" ∧ e.method ≠ r.method then false
  else if e.path ≠ "" ∧ e.path ≠ r.urlPath then false
  else if 0 < e.times ∧ e.times ≤ (e.matchedTimes : Int) then false
  else if 0 < e.queryParams.length then
    e.queryParams.all fun kv => queryGet r.query kv.1 == kv.2
  else true

/-- Index of the first expectation the request matches, scanning in
registration order, exactly as the handler's `for _, exp := range
s.Expectations` loop does. -/
def firstMatch (r : Request) : List Expectation → Option Nat
  | [] => none
  | e :: rest => if matchExpectation e r then some 0 else (firstMatch r rest).map (· + 1)

/-- The index the handler's loop selects for this request, if any. -/
def matchIndex (s : Server) (r : Request) : Option Nat :=
  firstMatch r s.expectations

/-- `http.MaxBytesReader` aborts `io.ReadAll` exactly when a positive limit is
configured and the body is longer than it. -/
def oversized (s : Server) (r : Request) : Bool :=
  if 0 < s.maxRequestBodySize ∧ s.maxRequestBodySize < (r.body.length : Int) then true else false

/-- Diagnostic body of the 413 response (`fmt.Fprintf` of the
`MaxBytesReader` error). -/
def tooLargeBody : String :=
  "aduket: request body too large: http: request body too large"

/-- Diagnostic body of the 404 fallback response. -/
def notFoundBody (r : Request) : String :=
  "aduket: no expectation matched for " ++ r.method ++ " " ++ r.urlPath

/-- Header multi-map flattened into the `w.Header().Add(k, v)` call sequence. -/
def flattenHeader (h : List (String × List String)) : List (String × String) :=
  (h.map fun kv => kv.2.map fun v => (kv.1, v)).flatten

/-- Everything one call of the Go handler does: the server state afterwards,
the response written, and the captured requests passed to `OnRequest`. -/
structure HandlerResult where
  server : Server
  response : HttpResponse
  observed : List CapturedRequest

/-- Go `Server.handler` (aduket.go lines 75-170), one request end to end:
oversized bodies answer 413 before any matching; otherwise the first matching
expectation has its counter incremented and its snapshot answers the request
(dynamic responder if set — its panic becomes the 500 recovery response —
else headers/status/body, appending the captured exchange); with no match the
404 fallback is written and the exchange appended.  The dynamic-responder
branch returns without appending, exactly as the Go code does. -/
def Server.handler (s : Server) (r : Request) : HandlerResult :=
  if oversized s r then
    { server := s,
      response := { status := 413, body := tooLargeBody, headers := [] },
      observed := [] }
  else
    match matchIndex s r with
    | some i =>
      let e := s.expectations.getD i defaultExpectation
      let exps2 := s.expectations.set i { e with matchedTimes := e.matchedTimes + 1 }
      let captured : CapturedRequest :=
        { method := r.method, urlPath := r.urlPath, query := r.query,
          bodyContent := r.body, statusCode := e.statusCode, responseBody := e.body }
      let observed := if s.onRequest.isSome then [captured] else []
      match e.func with
      | some f =>
        match f r with
        | Except.ok resp =>
          { server := { s with expectations := exps2 }, response := resp, observed := observed }
        | Except.error msg =>
          { server := { s with expectations := exps2 },
            response := { status := 500, body := "mock server panic: " ++ msg, headers := [] },
            observed := observed }
      | none =>
        { server := { s with expectations := exps2, requests := s.requests ++ [captured] },
          response := { status := e.statusCode, body := e.body, headers := flattenHeader e.header },
          observed := observed }
    | none =>
      let captured : CapturedRequest :=
        { method := r.method, urlPath := r.urlPath, query := r.query,
          bodyContent := r.body, statusCode := 404, responseBody := notFoundBody r }
      { server := { s with requests := s.requests ++ [captured] },
        response := { status := 404, body := notFoundBody r, headers := [] },
        observed := if s.onRequest.isSome then [captured] else [] }

/-- A whole test scenario: the server state after a sequence of requests. -/
def runRequests (s : Server) (rs : List Request) : Server :=
  rs.foldl (fun st r => (Server.handler st r).server) s

/-- Go `Server.Expect` (aduket.go lines 219-235).  The `panic("aduket: method
cannot be empty")` guard is embedded as `Except.error`; on success the fresh
expectation is appended and returned. -/
def Server.Expect (s : Server) (method path : String) : Except String (Server × Expectation) :=
  if method = "" then Except.error "aduket: method cannot be empty"
  else
    let e : Expectation :=
      { method := method, path := path, statusCode := 0, body := "", header := [],
        times := 0, matchedTimes := 0, delayTime := 0, func := none, queryParams := [] }
    Except.ok ({ s with expectations := s.expectations ++ [e] }, e)

/-- The `t.Errorf` messages one expectation contributes to `Verify`. -/
def verifyEntry (e : Expectation) : List String :=
  if e.matchedTimes = 0 then
    ["expected " ++ e.method ++ " " ++ e.path ++ " to be called, but it was not"]
  else if 0 < e.times ∧ (e.matchedTimes : Int) < e.times then
    ["expected " ++ e.method ++ " " ++ e.path ++ " to be called " ++ toString e.times ++
      " times, but it was called " ++ toString e.matchedTimes ++ " times"]
  else []

/-- Go `Server.Verify` (aduket.go lines 237-249): the list of `t.Errorf`
messages emitted, in expectation order.  It reads but never writes the server
(its Lean type `Server → List String` has no server output at all). -/
def Server.Verify (s : Server) : List String :=
  s.expectations.foldr (fun e acc => verifyEntry e ++ acc) []

/-- Go `Server.Reset` (aduket.go lines 251-258). -/
def Server.Reset (s : Server) : Server :=
  { s with expectations := [], requests := [] }

/-- Go `Server.RequestCount` (aduket.go lines 260-265). -/
def Server.RequestCount (s : Server) : Nat :=
  s.requests.length

/-- Go `Server.GetRequest` (aduket.go lines 267-275); out-of-range indices
yield `none` (Go `nil`). -/
def Server.GetRequest (s : Server) (i : Nat) : Option CapturedRequest :=
  if i < s.requests.length then some (s.requests.getD i
    { method := "", urlPath := "", query := [], bodyContent := "", statusCode := 0,
      responseBody := "" })
  else none

/-- The observable actions one pass of the Go handler performs, in source
order, for the lock-discipline analysis (aduket.go lines 75-170). -/
inductive Step where
  | deferRecover
  | lockAcquire
  | lockRelease
  | readBody
  | matchStep
  | increment
  | snapshot
  | sleep
  | observe
  | invokeResponder
  | writeResponse
  | appendLedger
deriving DecidableEq

/-- Which control-flow path one request takes through the handler. -/
structure PathCond where
  oversizedPath : Bool
  matched : Bool
  hasDelay : Bool
  hasResponder : Bool
  hasObserver : Bool

/-- A faithful transcription of the handler's action sequence on each path:
the recovery `defer` is installed first, then `s.mu.Lock()` (line 85), then —
inside the critical section — body reading, the match loop, the counter
increment and snapshot, the deliberate unlock/sleep/relock around a delay
(lines 128-132), the observer call, and either the responder invocation or
the static write + ledger append; the deferred unlock runs at return. -/
def handlerTrace (p : PathCond) : List Step :=
  [Step.deferRecover, Step.lockAcquire] ++
  (if p.oversizedPath then [Step.readBody, Step.writeResponse, Step.lockRelease]
   else
    [Step.readBody, Step.matchStep] ++
    (if p.matched then
      [Step.increment, Step.snapshot] ++
      (if p.hasDelay then [Step.lockRelease, Step.sleep, Step.lockAcquire] else []) ++
      (if p.hasObserver then [Step.observe] else []) ++
      (if p.hasResponder then [Step.invokeResponder]
        else [Step.writeResponse, Step.appendLedger]) ++
      [Step.lockRelease]
     else
      (if p.hasObserver then [Step.observe] else []) ++
      [Step.writeResponse, Step.appendLedger, Step.lockRelease]))

/-- Each step paired with the lock depth at which it executes. -/
def annotate : Nat → List Step → List (Step × Nat)
  | _, [] => []
  | d, s :: rest =>
    match s with
    | Step.lockAcquire => (Step.lockAcquire, d) :: annotate (d + 1) rest
    | Step.lockRelease => (Step.lockRelease, d - 1) :: annotate (d - 1) rest
    | t => (t, d) :: annotate d rest

/-- Every occurrence of `s` in the trace executes with the lock held. -/
def lockedB (t : List Step) (s : Step) : Bool :=
  (annotate 0 t).all fun p => p.1 != s || p.2 != 0

/-- Every occurrence of `s` in the trace executes with the lock free. -/
def unlockedB (t : List Step) (s : Step) : Bool :=
  (annotate 0 t).all fun p => p.1 != s || p.2 == 0

/-- The lock discipline exactly as claimed: match step and counter increment
inside the mutual-exclusion region; body reading, recovery setup AND
response writing outside it; the delay sleeping with the lock released. -/
def claimedLockDiscipline (p : PathCond) : Bool :=
  lockedB (handlerTrace p) Step.matchStep &&
  lockedB (handlerTrace p) Step.increment &&
  unlockedB (handlerTrace p) Step.readBody &&
  unlockedB (handlerTrace p) Step.deferRecover &&
  unlockedB (handlerTrace p) Step.writeResponse &&
  unlockedB (handlerTrace p) Step.sleep &&
  (!(p.hasDelay && p.matched && !p.oversizedPath) ||
    decide (Step.sleep ∈ handlerTrace p))

/-- The lock discipline the code actually follows: match step, counter
increment, body reading, response writing, responder invocation and ledger
append all inside the region; only the recovery setup and the delay sleep
outside it; the sleep present exactly on delayed matched paths, bracketed by
the release/reacquire. -/
def actualLockDiscipline (p : PathCond) : Bool :=
  lockedB (handlerTrace p) Step.matchStep &&
  lockedB (handlerTrace p) Step.increment &&
  lockedB (handlerTrace p) Step.readBody &&
  lockedB (handlerTrace p) Step.writeResponse &&
  lockedB (handlerTrace p) Step.invokeResponder &&
  lockedB (handlerTrace p) Step.appendLedger &&
  unlockedB (handlerTrace p) Step.deferRecover &&
  unlockedB (handlerTrace p) Step.sleep &&
  ((p.hasDelay && p.matched && !p.oversizedPath) ==
    decide (Step.sleep ∈ handlerTrace p))

/-- The ordinary static matched path, no delay, no responder, no observer. -/
def pathC10 : PathCond :=
  { oversizedPath := false, matched := true, hasDelay := false,
    hasResponder := false, hasObserver := false }

/-- The matching conditions of the spec, stated the way the spec states them:
method equality when the expectation's method is non-empty, path equality
when non-empty, repeat cap not exhausted (`matchedTimes < times`, or
`times = 0` meaning unlimited), and every required query parameter exactly
string-equal in the request URL. -/
def specMatches (e : Expectation) (r : Request) : Prop :=
  (e.method = "" ∨ e.method = r.method) ∧
  (e.path = "" ∨ e.path = r.urlPath) ∧
  (e.times = 0 ∨ (e.matchedTimes : Int) < e.times) ∧
  (∀ kv ∈ e.queryParams, queryGet r.query kv.1 = kv.2)

/-- Sample server for the C3 witness. -/
def serverC3 : Server :=
  { expectations := [{ defaultExpectation with method := "POST", path := "/large" }],
    requests := [], maxRequestBodySize := 5, onRequest := none }

/-- Sample oversized request for the C3 witness. -/
def requestC3 : Request :=
  { method := "POST", urlPath := "/large", query := [], body := "0123456789" }

/-- First sample expectation for the C1 witness: already exhausted
(`times = 1`, `matchedTimes = 1`). -/
def expC1a : Expectation :=
  { defaultExpectation with method := "GET", path := "/a", times := 1, matchedTimes := 1 }

/-- Second sample expectation for the C1 witness: same method/path,
unlimited. -/
def expC1b : Expectation :=
  { defaultExpectation with method := "GET", path := "/a" }

/-- Sample server for the C1 witness. -/
def serverC1 : Server :=
  { expectations := [expC1a, expC1b], requests := [], maxRequestBodySize := 0,
    onRequest := none }

/-- Sample request for the C1 witness. -/
def requestC1 : Request :=
  { method := "GET", urlPath := "/a", query := [], body := "" }

/-- The repeat-cap invariant of a list of expectations: a capped
expectation's counter never exceeds its cap. -/
def capInv (l : List Expectation) : Prop :=
  ∀ e ∈ l, 0 < e.times → (e.matchedTimes : Int) ≤ e.times

/-- Sample server for the C2 witness: one expectation capped at one match. -/
def serverC2 : Server :=
  { expectations := [{ defaultExpectation with method := "GET", path := "/once", times := 1 }],
    requests := [], maxRequestBodySize := 0, onRequest := none }

/-- Sample request for the C2 witness. -/
def requestC2 : Request :=
  { method := "GET", urlPath := "/once", query := [], body := "" }

/-- The expectation list after the match at index `i` incremented the
matched expectation's counter. -/
def incrementAt (l : List Expectation) (i : Nat) : List Expectation :=
  l.set i
    { l.getD i defaultExpectation with
        matchedTimes := (l.getD i defaultExpectation).matchedTimes + 1 }

/-- The Captured Exchange recorded for a request matched by expectation `i`:
request metadata, ingested body, and the snapshotted response status/body. -/
def matchedCaptured (s : Server) (r : Request) (i : Nat) : CapturedRequest :=
  { method := r.method, urlPath := r.urlPath, query := r.query, bodyContent := r.body,
    statusCode := (s.expectations.getD i defaultExpectation).statusCode,
    responseBody := (s.expectations.getD i defaultExpectation).body }

/-- The Captured Exchange recorded for an unmatched request. -/
def fallbackCaptured (r : Request) : CapturedRequest :=
  { method := r.method, urlPath := r.urlPath, query := r.query, bodyContent := r.body,
    statusCode := 404, responseBody := notFoundBody r }

/-- The always-succeeding dynamic responder of the C4 sample expectation. -/
def respC4 : Responder :=
  fun _ => Except.ok { status := 200, body := "ok", headers := [] }

/-- Sample expectation with a dynamic responder for the C4 counterexample. -/
def expC4 : Expectation :=
  { defaultExpectation with method := "GET", path := "/dyn", func := some respC4 }

/-- Sample server for the C4 counterexample. -/
def serverC4 : Server :=
  { expectations := [expC4], requests := [], maxRequestBodySize := 0, onRequest := none }

/-- Sample request for the C4 counterexample. -/
def requestC4 : Request :=
  { method := "GET", urlPath := "/dyn", query := [], body := "" }

/-- The always-panicking responder of the C6 sample expectation. -/
def respC6 : Responder := fun _ => Except.error "boom"

/-- Sample server for the C6 witness: one healthy static expectation already
matched once, then a panicking one. -/
def serverC6 : Server :=
  { expectations :=
      [{ defaultExpectation with method := "GET", path := "/ok", matchedTimes := 1 },
       { defaultExpectation with method := "GET", path := "/panic", func := some respC6 }],
    requests := [], maxRequestBodySize := 0, onRequest := none }

/-- Sample request for the C6 witness. -/
def requestC6 : Request :=
  { method := "GET", urlPath := "/panic", query := [], body := "" }

/-- The fresh expectation `Server.Expect` builds for a method/path pair:
empty headers, zero counters and status, no constraints, no responder. -/
def freshExpectation (method path : String) : Expectation :=
  { method := method, path := path, statusCode := 0, body := "", header := [],
    times := 0, matchedTimes := 0, delayTime := 0, func := none, queryParams := [] }

/-- Sample server for the C7 witness. -/
def serverC7 : Server :=
  { expectations := [expC1a], requests := [], maxRequestBodySize := 7, onRequest := none }

/-!
The remaining definitions embed the slice of Go's `encoding/json` that
`Server.AssertRequestBodyJSON` uses: `json.Unmarshal` into an untyped
structured value (`parseJson` — objects become maps, so later duplicate keys
overwrite earlier ones and key order is forgotten, here kept canonically
sorted by `insertField`), and `json.Marshal` back out (`marshal` — map keys
are emitted in sorted byte order, numbers here restricted to integers).
`Canonical` carves out the values whose objects are sorted maps — exactly the
values `parseJson` produces and Go map values denote.
-/

inductive Json where
  | null
  | bool (b : Bool)
  | num (n : Int)
  | str (s : String)
  | arr (elems : List Json)
  | obj (fields : List (String × Json))

def lbraceChar : Char := Char.ofNat 123

def rbraceChar : Char := Char.ofNat 125

def isWsChar (c : Char) : Bool :=
  c == ' ' || c == '\t' || c == '\n' || c == '\r'

def skipWs : List Char → List Char
  | [] => []
  | c :: cs => if isWsChar c then skipWs cs else c :: cs

def escapeChar (c : Char) : List Char :=
  if c = '"' then ['\\', '"']
  else if c = '\\' then ['\\', '\\']
  else if c = '\n' then ['\\', 'n']
  else if c = '\t' then ['\\', 't']
  else if c = '\r' then ['\\', 'r']
  else [c]

def escapeList (s : List Char) : List Char := (s.map escapeChar).flatten

def serKey (k : String) : List Char := '"' :: escapeList k.data ++ ['"']

def digitChar (d : Nat) : Char :=
  match d with
  | 0 => '0' | 1 => '1' | 2 => '2' | 3 => '3' | 4 => '4'
  | 5 => '5' | 6 => '6' | 7 => '7' | 8 => '8' | _ => '9'

def digitVal (c : Char) : Nat := c.toNat - 48

def natDigitsAux : Nat → Nat → List Char
  | 0, _ => []
  | fuel + 1, n =>
    if n < 10 then [digitChar n]
    else natDigitsAux fuel (n / 10) ++ [digitChar (n % 10)]

def natDigits (n : Nat) : List Char := natDigitsAux (n + 1) n

def serInt (n : Int) : List Char :=
  if n < 0 then '-' :: natDigits (-n).toNat else natDigits n.toNat

mutual

def marshal : Json → List Char
  | Json.null => ['n', 'u', 'l', 'l']
  | Json.bool true => ['t', 'r', 'u', 'e']
  | Json.bool false => ['f', 'a', 'l', 's', 'e']
  | Json.num n => serInt n
  | Json.str s => '"' :: escapeList s.data ++ ['"']
  | Json.arr xs => '[' :: marshalElems xs ++ [']']
  | Json.obj fs => lbraceChar :: marshalFields fs ++ [rbraceChar]

def marshalElems : List Json → List Char
  | [] => []
  | [x] => marshal x
  | x :: y :: xs => marshal x ++ ',' :: marshalElems (y :: xs)

def marshalFields : List (String × Json) → List Char
  | [] => []
  | [(k, v)] => serKey k ++ ':' :: marshal v
  | (k, v) :: g :: fs => serKey k ++ ':' :: marshal v ++ ',' :: marshalFields (g :: fs)
end

mutual

def jsonFuel : Json → Nat
  | Json.arr xs => 1 + fuelElems xs
  | Json.obj fs => 1 + fuelFields fs
  | _ => 1

def fuelElems : List Json → Nat
  | [] => 0
  | x :: xs => 1 + jsonFuel x + fuelElems xs

def fuelFields : List (String × Json) → Nat
  | [] => 0
  | f :: fs => 1 + jsonFuel f.2 + fuelFields fs
end

def charListLt : List Char → List Char → Bool
  | [], [] => false
  | [], _ :: _ => true
  | _ :: _, [] => false
  | a :: as, b :: bs =>
    if a.toNat < b.toNat then true
    else if b.toNat < a.toNat then false
    else charListLt as bs

def keyLt (a b : String) : Bool := charListLt a.data b.data

def insertField (k : String) (v : Json) : List (String × Json) → List (String × Json)
  | [] => [(k, v)]
  | (k2, v2) :: rest =>
    if k = k2 then (k, v) :: rest
    else if keyLt k k2 then (k, v) :: (k2, v2) :: rest
    else (k2, v2) :: insertField k v rest

def unescapeChar (e : Char) : Option Char :=
  if e = '"' then some '"'
  else if e = '\\' then some '\\'
  else if e = '/' then some '/'
  else if e = 'n' then some '\n'
  else if e = 't' then some '\t'
  else if e = 'r' then some '\r'
  else none

def parseStringBody : List Char → Option (List Char × List Char)
  | [] => none
  | c :: cs =>
    if c = '"' then some ([], cs)
    else if c = '\\' then
      match cs with
      | [] => none
      | e :: cs2 =>
        match unescapeChar e with
        | none => none
        | some u => (parseStringBody cs2).map fun p => (u :: p.1, p.2)
    else (parseStringBody cs).map fun p => (c :: p.1, p.2)

def parseDigits : List Char → Nat → Nat × List Char
  | [], acc => (acc, [])
  | c :: cs, acc => if c.isDigit then parseDigits cs (acc * 10 + digitVal c) else (acc, c :: cs)

def parsePosNumber : List Char → Option (Nat × List Char)
  | [] => none
  | c :: cs => if c.isDigit then some (parseDigits cs (digitVal c)) else none

def parseNumber : List Char → Option (Int × List Char)
  | [] => none
  | c :: cs =>
    if c = '-' then (parsePosNumber cs).map fun p => (-(p.1 : Int), p.2)
    else (parsePosNumber (c :: cs)).map fun p => ((p.1 : Int), p.2)

mutual

def parseValue : Nat → List Char → Option (Json × List Char)
  | 0, _ => none
  | fuel + 1, input =>
    match skipWs input with
    | [] => none
    | c :: cs =>
      if c = '"' then (parseStringBody cs).map fun p => (Json.str (String.mk p.1), p.2)
      else if c = '[' then
        match skipWs cs with
        | [] => none
        | c2 :: cs2 =>
          if c2 = ']' then some (Json.arr [], cs2) else parseElems fuel (c2 :: cs2) []
      else if c = lbraceChar then
        match skipWs cs with
        | [] => none
        | c2 :: cs2 =>
          if c2 = rbraceChar then some (Json.obj [], cs2) else parseFields fuel (c2 :: cs2) []
      else if c = 'n' then
        match cs with
        | 'u' :: 'l' :: 'l' :: rest => some (Json.null, rest)
        | _ => none
      else if c = 't' then
        match cs with
        | 'r' :: 'u' :: 'e' :: rest => some (Json.bool true, rest)
        | _ => none
      else if c = 'f' then
        match cs with
        | 'a' :: 'l' :: 's' :: 'e' :: rest => some (Json.bool false, rest)
        | _ => none
      else (parseNumber (c :: cs)).map fun p => (Json.num p.1, p.2)

def parseElems : Nat → List Char → List Json → Option (Json × List Char)
  | 0, _, _ => none
  | fuel + 1, input, acc =>
    match parseValue fuel input with
    | none => none
    | some (v, rest) =>
      match skipWs rest with
      | [] => none
      | c :: cs =>
        if c = ',' then parseElems fuel cs (acc ++ [v])
        else if c = ']' then some (Json.arr (acc ++ [v]), cs)
        else none

def parseFields : Nat → List Char → List (String × Json) → Option (Json × List Char)
  | 0, _, _ => none
  | fuel + 1, input, acc =>
    match skipWs input with
    | [] => none
    | c :: cs =>
      if c = '"' then
        match parseStringBody cs with
        | none => none
        | some (kchars, rest1) =>
          match skipWs rest1 with
          | [] => none
          | c2 :: cs2 =>
            if c2 = ':' then
              match parseValue fuel cs2 with
              | none => none
              | some (v, rest3) =>
                match skipWs rest3 with
                | [] => none
                | c3 :: cs3 =>
                  if c3 = ',' then parseFields fuel cs3 (insertField (String.mk kchars) v acc)
                  else if c3 = rbraceChar then
                    some (Json.obj (insertField (String.mk kchars) v acc), cs3)
                  else none
            else none
      else none
end

def parseJson (s : String) : Option Json :=
  match parseValue (2 * s.length + 2) s.data with
  | some (v, rest) => if skipWs rest = [] then some v else none
  | none => none

inductive Canonical : Json → Prop where
  | null : Canonical Json.null
  | bool (b : Bool) : Canonical (Json.bool b)
  | num (n : Int) : Canonical (Json.num n)
  | str (s : String) : Canonical (Json.str s)
  | arr (xs : List Json) (h : ∀ x ∈ xs, Canonical x) : Canonical (Json.arr xs)
  | obj (fs : List (String × Json))
      (hs : List.Pairwise (fun a b => keyLt a.1 b.1 = true) fs)
      (hv : ∀ f ∈ fs, Canonical f.2) : Canonical (Json.obj fs)

-- sanity evaluations
def digitsStep (a : Nat) (c : Char) : Nat := a * 10 + digitVal c

def nonDigitHead : List Char → Prop
  | [] => True
  | c :: _ => c.isDigit = false

def startOk (c : Char) : Prop :=
  c = '"' ∨ c = '[' ∨ c = lbraceChar ∨ c = 'n' ∨ c = 't' ∨ c = 'f' ∨ c = '-' ∨ c.isDigit = true

def sepLike : List Char → Prop
  | [] => True
  | c :: _ => c = ',' ∨ c = ']' ∨ c = rbraceChar

/-- Everything `t.Fatalf` / `t.Errorf` can do to a test in
`AssertRequestBodyJSON`: pass, abort on a missing request index, abort on an
unparsable body, or fail on mismatching canonical serializations. -/
inductive AssertResult where
  | pass
  | fatalNotFound
  | fatalUnmarshal
  | failMismatch
deriving DecidableEq

/-- Go `Server.AssertRequestBodyJSON` (aduket.go lines 312-330): look up the
i-th captured request, deserialize its body as structured data, re-serialize
both the expected value and the parsed body canonically, and compare those
serializations — not the raw bytes. -/
def Server.AssertRequestBodyJSON (s : Server) (i : Nat) (expected : Json) : AssertResult :=
  match Server.GetRequest s i with
  | none => AssertResult.fatalNotFound
  | some req =>
    match parseJson req.bodyContent with
    | none => AssertResult.fatalUnmarshal
    | some actual =>
      if marshal expected = marshal actual then AssertResult.pass
      else AssertResult.failMismatch

/-- The expected structured value of the C8 witness. -/
def jsonC8 : Json := Json.obj [("a", Json.num 2), ("b", Json.num 1)]

/-- First C8 witness request: same structured value as `jsonC8`, transmitted
with scrambled whitespace and object-key order. -/
def reqC8a : CapturedRequest :=
  { method := "POST", urlPath := "/a", query := [], statusCode := 200, responseBody := "",
    bodyContent := "\x7b \"b\" : 1, \"a\": 2 \x7d" }

/-- Second C8 witness request: a body that is not valid JSON. -/
def reqC8b : CapturedRequest :=
  { method := "POST", urlPath := "/b", query := [], statusCode := 200, responseBody := "",
    bodyContent := "not json" }

/-- Third C8 witness request: valid JSON denoting a different value. -/
def reqC8c : CapturedRequest :=
  { method := "POST", urlPath := "/c", query := [], statusCode := 200, responseBody := "",
    bodyContent := "[1, 2]" }

/-- Sample server for the C8 witness. -/
def serverC8 : Server :=
  { expectations := [], requests := [reqC8a, reqC8b, reqC8c], maxRequestBodySize := 0,
    onRequest := none }

/-- C10 counterexample: on the plain matched path the claimed discipline
fails — concretely, body reading does NOT execute outside the lock
(`s.mu.Lock()` on line 85 precedes the body read on lines 88-104), so the
claimed predicate evaluates to false. -/
theorem lockDiscipline_counterexample :
    claimedLockDiscipline pathC10 = false ∧
    unlockedB (handlerTrace pathC10) Step.readBody = false := by
  exact ⟨by decide, by decide⟩

/-- C10 (amended): the shared state is guarded by the single endpoint-wide
mutex, the match step and counter increment run inside the region, and the
delay sleep releases the lock before suspending and reacquires it afterward
— but body reading and response writing (and the responder invocation and
ledger append) also run inside the region; only the recovery setup and the
sleep itself execute outside it. -/
theorem lockDiscipline_amended : ∀ p : PathCond, actualLockDiscipline p = true := by
  intro p
  rcases p with ⟨o, m, d, r, ob⟩
  cases o <;> cases m <;> cases d <;> cases r <;> cases ob <;> decide

lemma getD_mem {α : Type} (l : List α) (i : Nat) (d : α) (h : i < l.length) :
    l.getD i d ∈ l := by
  rw [List.getD_eq_getElem?_getD, List.getElem?_eq_getElem h]
  exact List.getElem_mem h

lemma getD_set_self {α : Type} (l : List α) (i : Nat) (x d : α) (h : i < l.length) :
    (l.set i x).getD i d = x := by
  simp [List.getD_eq_getElem?_getD, List.getElem?_set_self, h]

lemma getD_set_other {α : Type} (l : List α) (i j : Nat) (x d : α) (h : j ≠ i) :
    (l.set i x).getD j d = l.getD j d := by
  simp [List.getD_eq_getElem?_getD, List.getElem?_set_ne (Ne.symm h)]

lemma firstMatch_some (r : Request) (l : List Expectation) (i : Nat)
    (h : firstMatch r l = some i) :
    i < l.length ∧ matchExpectation (l.getD i defaultExpectation) r = true ∧
      ∀ j, j < i → matchExpectation (l.getD j defaultExpectation) r = false := by
  induction l generalizing i with
  | nil => simp [firstMatch] at h
  | cons e rest ih =>
    by_cases he : matchExpectation e r = true
    · rw [firstMatch, if_pos he] at h
      have hi0 : i = 0 := by simpa using h.symm
      subst hi0
      exact ⟨by simp, he, fun j hj => absurd hj (by omega)⟩
    · rw [firstMatch, if_neg he] at h
      rcases hfm : firstMatch r rest with _ | k
      · rw [hfm] at h; simp at h
      · rw [hfm] at h
        have hik : i = k + 1 := by simpa using h.symm
        subst hik
        obtain ⟨hlen, hmatch, hbefore⟩ := ih k hfm
        refine ⟨by simpa using hlen, by simpa using hmatch, ?_⟩
        intro j hj
        cases j with
        | zero => simpa using Bool.not_eq_true _ ▸ (by simpa using he)
        | succ j2 =>
          have : j2 < k := by omega
          simpa using hbefore j2 this

lemma firstMatch_of (r : Request) (l : List Expectation) (i : Nat)
    (hlen : i < l.length)
    (hm : matchExpectation (l.getD i defaultExpectation) r = true)
    (hb : ∀ j, j < i → matchExpectation (l.getD j defaultExpectation) r = false) :
    firstMatch r l = some i := by
  induction l generalizing i with
  | nil => simp at hlen
  | cons e rest ih =>
    cases i with
    | zero =>
      rw [firstMatch, if_pos (by simpa using hm)]
    | succ k =>
      have he : matchExpectation e r = false := by simpa using hb 0 (Nat.succ_pos k)
      rw [firstMatch, if_neg (by simp [he])]
      have hrec : firstMatch r rest = some k := by
        refine ih k (by simpa using hlen) (by simpa using hm) ?_
        intro j hj
        simpa using hb (j + 1) (by omega)
      rw [hrec]
      rfl

lemma firstMatch_none (r : Request) (l : List Expectation) :
    firstMatch r l = none ↔ ∀ e ∈ l, matchExpectation e r = false := by
  induction l with
  | nil => simp [firstMatch]
  | cons e rest ih =>
    by_cases he : matchExpectation e r = true
    · rw [firstMatch, if_pos he]
      simp [he]
    · rw [firstMatch, if_neg he]
      have he' : matchExpectation e r = false := by simpa using he
      constructor
      · intro h
        have : firstMatch r rest = none := by
          rcases hfm : firstMatch r rest with _ | k
          · rfl
          · rw [hfm] at h; simp at h
        intro x hx
        rcases List.mem_cons.mp hx with rfl | hx2
        · exact he'
        · exact (ih.mp this) x hx2
      · intro h
        have : firstMatch r rest = none := ih.mpr fun x hx => h x (List.mem_cons_of_mem _ hx)
        rw [this]
        rfl

lemma matchExpectation_iff (e : Expectation) (r : Request) (h : 0 ≤ e.times) :
    matchExpectation e r = true ↔ specMatches e r := by
  have hq : (e.queryParams.all fun kv => queryGet r.query kv.1 == kv.2) = true ↔
      ∀ kv ∈ e.queryParams, queryGet r.query kv.1 = kv.2 := by
    simp [List.all_eq_true]
  unfold matchExpectation specMatches
  split_ifs with h1 h2 h3 h4
  · simp only [Bool.false_eq_true, false_iff]
    rintro ⟨hA, -, -, -⟩
    tauto
  · simp only [Bool.false_eq_true, false_iff]
    rintro ⟨-, hB, -, -⟩
    tauto
  · simp only [Bool.false_eq_true, false_iff]
    rintro ⟨-, -, hC, -⟩
    omega
  · rw [hq]
    constructor
    · intro hD
      refine ⟨by tauto, by tauto, by omega, hD⟩
    · rintro ⟨-, -, -, hD⟩
      exact hD
  · have hempty : e.queryParams = [] := List.length_eq_zero.mp (by omega)
    simp only [true_iff]
    refine ⟨by tauto, by tauto, by omega, ?_⟩
    simp [hempty]

lemma exhausted_no_match (e : Expectation) (r : Request) (hpos : 0 < e.times)
    (hex : e.times ≤ (e.matchedTimes : Int)) : matchExpectation e r = false := by
  unfold matchExpectation
  split_ifs with h1 h2 h3 h4
  · rfl
  · rfl
  · rfl
  · exact absurd ⟨hpos, hex⟩ h3
  · exact absurd ⟨hpos, hex⟩ h3

lemma match_true_lt (e : Expectation) (r : Request) (hm : matchExpectation e r = true)
    (hpos : 0 < e.times) : (e.matchedTimes : Int) < e.times := by
  by_contra hge
  rw [exhausted_no_match e r hpos (by omega)] at hm
  exact absurd hm (by simp)

lemma handler_matched_expectations (s : Server) (r : Request) (i : Nat)
    (hsz : oversized s r = false) (hi : matchIndex s r = some i) :
    (Server.handler s r).server.expectations =
      s.expectations.set i
        { s.expectations.getD i defaultExpectation with
            matchedTimes := (s.expectations.getD i defaultExpectation).matchedTimes + 1 } := by
  unfold Server.handler
  rw [hsz]
  simp only [Bool.false_eq_true, if_false, hi]
  rcases hf : (s.expectations.getD i defaultExpectation).func with _ | f
  · simp only [hf]
  · simp only [hf]
    cases hfr : f r with
    | ok resp => simp only [hfr]
    | error msg => simp only [hfr]

lemma handler_unmatched (s : Server) (r : Request)
    (hsz : oversized s r = false) (hi : matchIndex s r = none) :
    Server.handler s r =
      { server := { s with requests := s.requests ++
          [{ method := r.method, urlPath := r.urlPath, query := r.query,
             bodyContent := r.body, statusCode := 404, responseBody := notFoundBody r }] },
        response := { status := 404, body := notFoundBody r, headers := [] },
        observed := if s.onRequest.isSome then
          [{ method := r.method, urlPath := r.urlPath, query := r.query,
             bodyContent := r.body, statusCode := 404, responseBody := notFoundBody r }]
          else [] } := by
  unfold Server.handler
  rw [hsz]
  simp only [Bool.false_eq_true, if_false, hi]

/-- C3: an oversized request (positive limit, body longer than it) yields 413
with a diagnostic body and terminates before any match attempt: the server is
unchanged (no counter moves, no ledger append) and the observer is not
invoked. -/
theorem oversized_yields_413 (s : Server) (r : Request)
    (hpos : 0 < s.maxRequestBodySize)
    (hbig : s.maxRequestBodySize < (r.body.length : Int)) :
    (Server.handler s r).response.status = 413 ∧
    (Server.handler s r).response.body = tooLargeBody ∧
    (Server.handler s r).server = s ∧
    (Server.handler s r).observed = [] := by
  have hov : oversized s r = true := by
    unfold oversized
    rw [if_pos ⟨hpos, hbig⟩]
  unfold Server.handler
  rw [hov]
  exact ⟨rfl, rfl, rfl, rfl⟩

/-- C3 witness: a concrete 10-byte body against a 5-byte limit is rejected
with 413 and the server state is untouched. -/
theorem oversized_yields_413_witness :
    (Server.handler serverC3 requestC3).response.status = 413 ∧
    (Server.handler serverC3 requestC3).server = serverC3 :=
  ⟨(oversized_yields_413 serverC3 requestC3 (by decide) (by decide)).1,
   (oversized_yields_413 serverC3 requestC3 (by decide) (by decide)).2.2.1⟩

/-- C1: for every request that is not rejected as oversized, the match engine
selects the first expectation in registration order satisfying all four spec
conditions (`specMatches`: conditional method equality, conditional path
equality, repeat cap not exhausted with `times = 0` unlimited, exact query
equality), incrementing exactly that expectation's counter; when no
expectation satisfies them the decision is the 404 fallback — a value, never
an error (`Server.handler` is total).  `times` fields are non-negative, as
they are for every expectation built by `Server.Expect`. -/
theorem matchEngine_first_eligible (s : Server) (r : Request)
    (hsz : oversized s r = false)
    (ht : ∀ e ∈ s.expectations, 0 ≤ e.times) :
    (∀ i, i < s.expectations.length →
        specMatches (s.expectations.getD i defaultExpectation) r →
        (∀ j, j < i → ¬ specMatches (s.expectations.getD j defaultExpectation) r) →
        matchIndex s r = some i ∧
          ((Server.handler s r).server.expectations.getD i defaultExpectation).matchedTimes =
            (s.expectations.getD i defaultExpectation).matchedTimes + 1) ∧
    ((∀ e ∈ s.expectations, ¬ specMatches e r) →
        matchIndex s r = none ∧ (Server.handler s r).response.status = 404) := by
  constructor
  · intro i hlen hspec hbefore
    have hm : matchExpectation (s.expectations.getD i defaultExpectation) r = true :=
      (matchExpectation_iff _ r (ht _ (getD_mem _ i _ hlen))).mpr hspec
    have hb : ∀ j, j < i → matchExpectation (s.expectations.getD j defaultExpectation) r = false := by
      intro j hj
      have hjlen : j < s.expectations.length := by omega
      have := (matchExpectation_iff (s.expectations.getD j defaultExpectation) r
        (ht _ (getD_mem _ j _ hjlen))).not.mpr (hbefore j hj)
      simpa using this
    have hsel : matchIndex s r = some i := firstMatch_of r s.expectations i hlen hm hb
    refine ⟨hsel, ?_⟩
    rw [handler_matched_expectations s r i hsz hsel, getD_set_self _ _ _ _ hlen]
  · intro hnone
    have : firstMatch r s.expectations = none := by
      rw [firstMatch_none]
      intro e he
      have := (matchExpectation_iff e r (ht e he)).not.mpr (hnone e he)
      simpa using this
    refine ⟨this, ?_⟩
    rw [handler_unmatched s r hsz this]

/-- C1 witness: with the earlier identical expectation exhausted, the engine
selects the later one (registration order, first eligible wins) and
increments its counter. -/
theorem matchEngine_first_eligible_witness :
    matchIndex serverC1 requestC1 = some 1 ∧
      ((Server.handler serverC1 requestC1).server.expectations.getD 1
          defaultExpectation).matchedTimes =
        (serverC1.expectations.getD 1 defaultExpectation).matchedTimes + 1 :=
  (matchEngine_first_eligible serverC1 requestC1 rfl
    (by
      intro e he
      simp only [serverC1, expC1a, expC1b, defaultExpectation, List.mem_cons,
        List.not_mem_nil, or_false] at he
      rcases he with rfl | rfl <;> decide)).1 1
    (by decide)
    (by
      refine ⟨Or.inr rfl, Or.inr rfl, Or.inl rfl, ?_⟩
      intro kv hkv
      simp [serverC1, expC1b, defaultExpectation] at hkv)
    (by
      intro j hj
      have hj0 : j = 0 := by omega
      subst hj0
      rintro ⟨-, -, hC, -⟩
      have h1 : (serverC1.expectations.getD 0 defaultExpectation).times = 1 := rfl
      have h2 : (serverC1.expectations.getD 0 defaultExpectation).matchedTimes = 1 := rfl
      rw [h1, h2] at hC
      omega)

lemma handler_cap_step (s : Server) (r : Request) (h : capInv s.expectations) :
    capInv (Server.handler s r).server.expectations := by
  by_cases hsz : oversized s r = true
  · unfold Server.handler
    rw [hsz]
    simp only [if_true]
    exact h
  · have hsz' : oversized s r = false := by simpa using hsz
    rcases hi : matchIndex s r with _ | i
    · rw [handler_unmatched s r hsz' hi]
      exact h
    · rw [handler_matched_expectations s r i hsz' hi]
      intro e he hpos
      rcases List.mem_or_eq_of_mem_set he with he' | rfl
      · exact h e he' hpos
      · have hlen : i < s.expectations.length := (firstMatch_some r s.expectations i hi).1
        have hm : matchExpectation (s.expectations.getD i defaultExpectation) r = true :=
          (firstMatch_some r s.expectations i hi).2.1
        have hlt : ((s.expectations.getD i defaultExpectation).matchedTimes : Int) <
            (s.expectations.getD i defaultExpectation).times :=
          match_true_lt _ r hm (by exact hpos)
        simp only at hpos ⊢
        push_cast
        omega

/-- C2: a capped expectation (`times = N > 0`) is matched at most `N` times
over any request sequence — its counter, incremented exactly once per
successful match (third conjunct gives the exact one-step effect), never
exceeds `N` (first conjunct preserves the cap invariant over any run), and an
exhausted expectation never matches again, so an (N+1)-th otherwise-matching
request falls through past it (second conjunct). -/
theorem repeatCap_at_most_n (s : Server) (rs : List Request)
    (hinv : capInv s.expectations) :
    capInv (runRequests s rs).expectations ∧
    (∀ (e : Expectation) (r : Request), 0 < e.times → e.times ≤ (e.matchedTimes : Int) →
        matchExpectation e r = false) ∧
    (∀ (st : Server) (r : Request) (i : Nat),
        oversized st r = false → matchIndex st r = some i →
        (Server.handler st r).server.expectations =
          st.expectations.set i
            { st.expectations.getD i defaultExpectation with
                matchedTimes := (st.expectations.getD i defaultExpectation).matchedTimes + 1 }) := by
  refine ⟨?_, fun e r hpos hex => exhausted_no_match e r hpos hex,
    fun st r i hsz hi => handler_matched_expectations st r i hsz hi⟩
  induction rs generalizing s with
  | nil => exact hinv
  | cons r rest ih =>
    have hstep : capInv ((Server.handler s r).server).expectations :=
      handler_cap_step s r hinv
    simpa [runRequests, List.foldl_cons] using ih _ hstep

/-- C2 witness: after two otherwise-matching requests against a
`times = 1` expectation, the cap invariant still holds. -/
theorem repeatCap_at_most_n_witness :
    capInv (runRequests serverC2 [requestC2, requestC2]).expectations :=
  (repeatCap_at_most_n serverC2 [requestC2, requestC2]
    (by
      intro e he
      simp only [serverC2, defaultExpectation, List.mem_cons, List.not_mem_nil,
        or_false] at he
      subst he
      decide)).1

lemma handler_matched_responder_err (s : Server) (r : Request) (i : Nat) (f : Responder)
    (msg : String) (hsz : oversized s r = false) (hi : matchIndex s r = some i)
    (hf : (s.expectations.getD i defaultExpectation).func = some f)
    (hfr : f r = Except.error msg) :
    Server.handler s r =
      { server := { s with expectations := incrementAt s.expectations i },
        response := { status := 500, body := "mock server panic: " ++ msg, headers := [] },
        observed := if s.onRequest.isSome then [matchedCaptured s r i] else [] } := by
  unfold Server.handler incrementAt matchedCaptured
  rw [hsz]
  simp only [Bool.false_eq_true, if_false, hi, hf, hfr]

lemma handler_matched_responder_ok (s : Server) (r : Request) (i : Nat) (f : Responder)
    (resp : HttpResponse) (hsz : oversized s r = false) (hi : matchIndex s r = some i)
    (hf : (s.expectations.getD i defaultExpectation).func = some f)
    (hfr : f r = Except.ok resp) :
    Server.handler s r =
      { server := { s with expectations := incrementAt s.expectations i },
        response := resp,
        observed := if s.onRequest.isSome then [matchedCaptured s r i] else [] } := by
  unfold Server.handler incrementAt matchedCaptured
  rw [hsz]
  simp only [Bool.false_eq_true, if_false, hi, hf, hfr]

lemma handler_matched_static (s : Server) (r : Request) (i : Nat)
    (hsz : oversized s r = false) (hi : matchIndex s r = some i)
    (hf : (s.expectations.getD i defaultExpectation).func = none) :
    Server.handler s r =
      { server := { s with expectations := incrementAt s.expectations i,
                           requests := s.requests ++ [matchedCaptured s r i] },
        response := { status := (s.expectations.getD i defaultExpectation).statusCode,
                      body := (s.expectations.getD i defaultExpectation).body,
                      headers := flattenHeader (s.expectations.getD i defaultExpectation).header },
        observed := if s.onRequest.isSome then [matchedCaptured s r i] else [] } := by
  unfold Server.handler incrementAt matchedCaptured
  rw [hsz]
  simp only [Bool.false_eq_true, if_false, hi, hf]

/-- C4 (amended): for every request that is not rejected with 413, the ledger
grows by exactly one fully populated Captured Exchange when the request is
answered by the static path or the 404 fallback; a request handled by a
dynamic responder is NOT appended to the ledger (the Go responder branch
returns before the append).  `RequestCount` is the ledger length, so it
counts exactly the non-413, non-responder requests. -/
theorem ledger_append_per_request (s : Server) (r : Request)
    (hsz : oversized s r = false) :
    (∀ i f, matchIndex s r = some i →
        (s.expectations.getD i defaultExpectation).func = some f →
        (Server.handler s r).server.requests = s.requests) ∧
    (∀ i, matchIndex s r = some i →
        (s.expectations.getD i defaultExpectation).func = none →
        (Server.handler s r).server.requests = s.requests ++ [matchedCaptured s r i]) ∧
    (matchIndex s r = none →
        (Server.handler s r).server.requests = s.requests ++ [fallbackCaptured r]) ∧
    (∀ st : Server, Server.RequestCount st = st.requests.length) := by
  refine ⟨?_, ?_, ?_, fun st => rfl⟩
  · intro i f hi hf
    cases hfr : f r with
    | ok resp => rw [handler_matched_responder_ok s r i f resp hsz hi hf hfr]
    | error msg => rw [handler_matched_responder_err s r i f msg hsz hi hf hfr]
  · intro i hi hf
    rw [handler_matched_static s r i hsz hi hf]
  · intro hi
    rw [handler_unmatched s r hsz hi]
    rfl

/-- C4 counterexample: a concrete request that is not rejected with 413 and is
handled by a dynamic responder (it matches expectation 0), after which the
ledger is still empty — no Captured Exchange was appended, contradicting the
claim that every non-413 request appends exactly one. -/
theorem ledger_append_counterexample :
    (Server.handler serverC4 requestC4).response.status = 200 ∧
    matchIndex serverC4 requestC4 = some 0 ∧
    (Server.handler serverC4 requestC4).server.requests = [] ∧
    Server.RequestCount (Server.handler serverC4 requestC4).server = 0 :=
  ⟨rfl, rfl, rfl, rfl⟩

/-- C4 witness: the amended theorem applied to the concrete responder server
(responder case) and to a concrete unmatched request (404 case: the ledger
grows by the populated fallback exchange). -/
theorem ledger_append_per_request_witness :
    (Server.handler serverC4 requestC4).server.requests = serverC4.requests ∧
    (Server.handler serverC4 { method := "PUT", urlPath := "/none", query := [], body := "b" }).server.requests =
      serverC4.requests ++
        [fallbackCaptured { method := "PUT", urlPath := "/none", query := [], body := "b" }] :=
  ⟨(ledger_append_per_request serverC4 requestC4 rfl).1 0 respC4 rfl rfl,
   (ledger_append_per_request serverC4
      { method := "PUT", urlPath := "/none", query := [], body := "b" } rfl).2.2.1 rfl⟩

/-- C6: a runtime fault (panic) raised inside a caller-supplied dynamic
responder is converted by the per-request recovery boundary into a 500
response whose body names the fault; the handler still returns an ordinary
result (`Server.handler` is total — nothing escapes to the transport layer),
the ledger is untouched, and every other expectation is unchanged. -/
theorem responder_panic_contained (s : Server) (r : Request) (i : Nat) (f : Responder)
    (msg : String) (hsz : oversized s r = false) (hi : matchIndex s r = some i)
    (hf : (s.expectations.getD i defaultExpectation).func = some f)
    (hrun : f r = Except.error msg) :
    (Server.handler s r).response.status = 500 ∧
    (Server.handler s r).response.body = "mock server panic: " ++ msg ∧
    (Server.handler s r).server.requests = s.requests ∧
    ∀ j, j ≠ i → (Server.handler s r).server.expectations.getD j defaultExpectation =
      s.expectations.getD j defaultExpectation := by
  rw [handler_matched_responder_err s r i f msg hsz hi hf hrun]
  refine ⟨rfl, rfl, rfl, ?_⟩
  intro j hj
  exact getD_set_other _ _ _ _ _ hj

/-- C6 witness: the concrete panicking responder yields 500 with the
diagnostic body and leaves the other expectation untouched. -/
theorem responder_panic_contained_witness :
    (Server.handler serverC6 requestC6).response.status = 500 ∧
    (Server.handler serverC6 requestC6).response.body = "mock server panic: " ++ "boom" :=
  ⟨(responder_panic_contained serverC6 requestC6 1 respC6 "boom" rfl rfl rfl rfl).1,
   (responder_panic_contained serverC6 requestC6 1 respC6 "boom" rfl rfl rfl rfl).2.1⟩

/-- C5: `Verify` reports no failure exactly when every registered expectation
has `matchedTimes ≥ 1` and it is not the case that `times > 0` and
`matchedTimes < times`; a `times = 0` expectation passes once matched at
least once, with no upper bound.  `Verify` reads the server and returns only
messages (`Server → List String`), mutating nothing. -/
theorem verify_passes_iff (s : Server) :
    Server.Verify s = [] ↔
      ∀ e ∈ s.expectations,
        1 ≤ e.matchedTimes ∧ ¬(0 < e.times ∧ (e.matchedTimes : Int) < e.times) := by
  have entry : ∀ e : Expectation,
      verifyEntry e = [] ↔
        (1 ≤ e.matchedTimes ∧ ¬(0 < e.times ∧ (e.matchedTimes : Int) < e.times)) := by
    intro e
    unfold verifyEntry
    split_ifs with h1 h2
    · constructor
      · intro h
        simp at h
      · rintro ⟨hA, -⟩
        omega
    · constructor
      · intro h
        simp at h
      · rintro ⟨-, hB⟩
        exact absurd h2 hB
    · constructor
      · intro _
        exact ⟨by omega, h2⟩
      · intro _
        rfl
  unfold Server.Verify
  generalize s.expectations = l
  induction l with
  | nil => simp
  | cons e rest ih =>
    simp only [List.foldr_cons]
    constructor
    · intro h
      obtain ⟨h1, h2⟩ := List.append_eq_nil.mp h
      intro x hx
      rcases List.mem_cons.mp hx with rfl | hx2
      · exact (entry x).mp h1
      · exact (ih.mp h2) x hx2
    · intro h
      rw [List.append_eq_nil]
      exact ⟨(entry e).mpr (h e (by simp)),
        ih.mpr fun x hx => h x (List.mem_cons_of_mem _ hx)⟩

/-- C7: registering with an empty method aborts immediately (the Go `panic`,
embedded as `Except.error`, reaches the caller before any mutation — no
server state is produced, so the expectation list is untouched); with a
non-empty method exactly one fresh expectation (given method and path, empty
headers, zero counters, no constraints) is appended at the end of the list
and returned, and the previously registered expectations and the ledger are
unchanged (`{ s with ... }` keeps every other field of `s`). -/
theorem expect_registration (s : Server) (m p : String) :
    (m = "" → Server.Expect s m p = Except.error "aduket: method cannot be empty") ∧
    (m ≠ "" → Server.Expect s m p =
      Except.ok ({ s with expectations := s.expectations ++ [freshExpectation m p] },
        freshExpectation m p) ∧
      freshExpectation m p = { defaultExpectation with method := m, path := p }) := by
  constructor
  · intro hm
    unfold Server.Expect
    rw [if_pos hm]
  · intro hm
    constructor
    · unfold Server.Expect
      rw [if_neg hm]
      rfl
    · rfl

/-- C7 witness: the empty method aborts, and a concrete registration appends
exactly the fresh expectation while keeping the earlier one and the ledger. -/
theorem expect_registration_witness :
    Server.Expect serverC7 "" "/x" = Except.error "aduket: method cannot be empty" ∧
    Server.Expect serverC7 "GET" "/x" =
      Except.ok ({ serverC7 with
          expectations := serverC7.expectations ++ [freshExpectation "GET" "/x"] },
        freshExpectation "GET" "/x") :=
  ⟨(expect_registration serverC7 "" "/x").1 rfl,
   ((expect_registration serverC7 "GET" "/x").2 (by decide)).1⟩

/-- C9: `Reset` empties both the expectation list and the ledger in the one
critical section, and every other configuration field — the body-size limit
and the observer callback — keeps its value. -/
theorem reset_clears_and_preserves (s : Server) :
    (Server.Reset s).expectations = [] ∧
    (Server.Reset s).requests = [] ∧
    (Server.Reset s).maxRequestBodySize = s.maxRequestBodySize ∧
    (Server.Reset s).onRequest = s.onRequest :=
  ⟨rfl, rfl, rfl, rfl⟩

lemma charListLt_irrefl : ∀ l, charListLt l l = false
  | [] => rfl
  | a :: as => by
    unfold charListLt
    rw [if_neg (by omega), if_neg (by omega)]
    exact charListLt_irrefl as

lemma charListLt_asymm : ∀ a b, charListLt a b = true → charListLt b a = false
  | [], [] => by simp [charListLt]
  | [], _ :: _ => fun _ => rfl
  | _ :: _, [] => by simp [charListLt]
  | a :: as, b :: bs => by
    intro h
    unfold charListLt at h ⊢
    by_cases hab : a.toNat < b.toNat
    · rw [if_neg (by omega), if_pos (by omega)]
    · by_cases hba : b.toNat < a.toNat
      · rw [if_neg hab, if_pos hba] at h
        exact absurd h (by simp)
      · rw [if_neg hab, if_neg hba] at h
        rw [if_neg hba, if_neg hab]
        exact charListLt_asymm as bs h

lemma charListLt_conn : ∀ a b, charListLt a b = false → charListLt b a = false → a = b
  | [], [] => fun _ _ => rfl
  | [], _ :: _ => by simp [charListLt]
  | _ :: _, [] => by simp [charListLt]
  | a :: as, b :: bs => by
    intro h1 h2
    unfold charListLt at h1 h2
    by_cases hab : a.toNat < b.toNat
    · rw [if_pos hab] at h1
      exact absurd h1 (by simp)
    · by_cases hba : b.toNat < a.toNat
      · rw [if_pos hba] at h2
        exact absurd h2 (by simp)
      · rw [if_neg hab, if_neg hba] at h1
        rw [if_neg hba, if_neg hab] at h2
        have hae : a = b := by
          have hval : a.toNat = b.toNat := by omega
          exact Char.ext (UInt32.ext hval)
        rw [hae, charListLt_conn as bs h1 h2]

lemma charListLt_trans : ∀ a b c, charListLt a b = true → charListLt b c = true →
    charListLt a c = true
  | [], [], _ => by simp [charListLt]
  | _ :: _, [], _ => by simp [charListLt]
  | [], _ :: _, [] => by simp [charListLt]
  | [], _ :: _, _ :: _ => fun _ _ => rfl
  | _ :: _, _ :: _, [] => by simp [charListLt]
  | a :: as, b :: bs, c :: cs => by
    intro h1 h2
    unfold charListLt at h1 h2 ⊢
    by_cases hab : a.toNat < b.toNat
    · by_cases hbc : b.toNat < c.toNat
      · rw [if_pos (by omega)]
      · by_cases hcb : c.toNat < b.toNat
        · rw [if_pos hcb, if_neg (by omega)] at h2
          exact absurd h2 (by simp)
        · rw [if_pos (by omega)]
    · by_cases hba : b.toNat < a.toNat
      · rw [if_neg hab, if_pos hba] at h1
        exact absurd h1 (by simp)
      · rw [if_neg hab, if_neg hba] at h1
        by_cases hbc : b.toNat < c.toNat
        · rw [if_pos (by omega)]
        · by_cases hcb : c.toNat < b.toNat
          · rw [if_neg hbc, if_pos hcb] at h2
            exact absurd h2 (by simp)
          · rw [if_neg hbc, if_neg hcb] at h2
            rw [if_neg (by omega), if_neg (by omega)]
            exact charListLt_trans as bs cs h1 h2

lemma string_data_inj {a b : String} (h : a.data = b.data) : a = b :=
  congrArg String.mk h

lemma keyLt_asymm (a b : String) (h : keyLt a b = true) : keyLt b a = false :=
  charListLt_asymm a.data b.data h

lemma keyLt_conn (a b : String) (h1 : keyLt a b = false) (h2 : keyLt b a = false) : a = b :=
  string_data_inj (charListLt_conn a.data b.data h1 h2)

lemma keyLt_trans (a b c : String) (h1 : keyLt a b = true) (h2 : keyLt b c = true) :
    keyLt a c = true :=
  charListLt_trans a.data b.data c.data h1 h2

lemma mem_insertField (k : String) (v : Json) :
    ∀ (fs : List (String × Json)) (a : String × Json),
      a ∈ insertField k v fs → a = (k, v) ∨ a ∈ fs
  | [], a => by simp [insertField]
  | (k2, v2) :: rest, a => by
    unfold insertField
    split_ifs with h1 h2
    · intro h
      rcases List.mem_cons.mp h with rfl | hm
      · exact Or.inl rfl
      · exact Or.inr (List.mem_cons_of_mem _ hm)
    · intro h
      rcases List.mem_cons.mp h with rfl | hm
      · exact Or.inl rfl
      · exact Or.inr hm
    · intro h
      rcases List.mem_cons.mp h with rfl | hm
      · exact Or.inr (List.mem_cons_self _ _)
      · rcases mem_insertField k v rest a hm with h' | h'
        · exact Or.inl h'
        · exact Or.inr (List.mem_cons_of_mem _ h')

lemma insertField_sorted (k : String) (v : Json) (fs : List (String × Json))
    (h : List.Pairwise (fun a b => keyLt a.1 b.1 = true) fs) :
    List.Pairwise (fun a b => keyLt a.1 b.1 = true) (insertField k v fs) := by
  induction fs with
  | nil =>
    unfold insertField
    simp
  | cons f rest ih =>
    obtain ⟨k2, v2⟩ := f
    rw [List.pairwise_cons] at h
    obtain ⟨hall, hrest⟩ := h
    unfold insertField
    split_ifs with h1 h2
    · subst h1
      exact List.pairwise_cons.mpr ⟨hall, hrest⟩
    · refine List.pairwise_cons.mpr ⟨?_, List.pairwise_cons.mpr ⟨hall, hrest⟩⟩
      intro b hb
      rcases List.mem_cons.mp hb with rfl | hbm
      · exact h2
      · exact keyLt_trans _ _ _ h2 (hall b hbm)
    · refine List.pairwise_cons.mpr ⟨?_, ih hrest⟩
      intro b hb
      rcases mem_insertField k v rest b hb with rfl | hbm
      · cases hkk : keyLt k2 k
        · exact absurd (keyLt_conn k k2 (by simpa using h2) hkk) h1
        · rfl
      · exact hall b hbm

lemma insertField_append (k : String) (v : Json) :
    ∀ fs : List (String × Json), (∀ a ∈ fs, keyLt a.1 k = true) →
      insertField k v fs = fs ++ [(k, v)]
  | [], _ => rfl
  | (k2, v2) :: rest, h => by
    unfold insertField
    have hk2 : keyLt k2 k = true := h (k2, v2) (List.mem_cons_self _ _)
    have hne : ¬ k = k2 := by
      rintro rfl
      rw [show keyLt k k = false from charListLt_irrefl k.data] at hk2
      exact absurd hk2 (by simp)
    have hnk : ¬ keyLt k k2 = true := by
      intro hkk
      rw [keyLt_asymm k k2 hkk] at hk2
      exact absurd hk2 (by simp)
    rw [if_neg hne, if_neg hnk,
      insertField_append k v rest (fun a ha => h a (List.mem_cons_of_mem _ ha))]
    rfl

lemma digitChar_isDigit (d : Nat) : (digitChar d).isDigit = true := by
  unfold digitChar
  split <;> decide

lemma digitVal_digitChar (d : Nat) (h : d < 10) : digitVal (digitChar d) = d := by
  interval_cases d <;> decide

lemma natDigitsAux_extra (n : Nat) : ∀ f1 f2, n < f1 → n < f2 →
    natDigitsAux f1 n = natDigitsAux f2 n := by
  induction n using Nat.strong_induction_on with
  | _ n ih =>
    intro f1 f2 h1 h2
    cases f1 with
    | zero => omega
    | succ g1 =>
      cases f2 with
      | zero => omega
      | succ g2 =>
        unfold natDigitsAux
        by_cases hd : n < 10
        · rw [if_pos hd, if_pos hd]
        · rw [if_neg hd, if_neg hd]
          have hdiv : n / 10 < n := Nat.div_lt_self (by omega) (by omega)
          rw [ih (n / 10) hdiv g1 g2 (by omega) (by omega)]

lemma natDigits_small (n : Nat) (h : n < 10) : natDigits n = [digitChar n] := by
  unfold natDigits natDigitsAux
  rw [if_pos h]

lemma natDigits_step (n : Nat) (h : ¬ n < 10) :
    natDigits n = natDigits (n / 10) ++ [digitChar (n % 10)] := by
  show natDigitsAux (n + 1) n = _
  unfold natDigitsAux
  rw [if_neg h]
  have hdiv : n / 10 < n := Nat.div_lt_self (by omega) (by omega)
  rw [natDigitsAux_extra (n / 10) n (n / 10 + 1) (by omega) (by omega)]
  rfl

lemma natDigits_ne_nil (n : Nat) : natDigits n ≠ [] := by
  by_cases h : n < 10
  · rw [natDigits_small n h]
    simp
  · rw [natDigits_step n h]
    simp

lemma natDigits_all_digit (n : Nat) : ∀ c ∈ natDigits n, c.isDigit = true := by
  induction n using Nat.strong_induction_on with
  | _ n ih =>
    by_cases h : n < 10
    · rw [natDigits_small n h]
      intro c hc
      rw [List.mem_singleton.mp hc]
      exact digitChar_isDigit n
    · rw [natDigits_step n h]
      intro c hc
      rcases List.mem_append.mp hc with hc2 | hc2
      · exact ih (n / 10) (Nat.div_lt_self (by omega) (by omega)) c hc2
      · rw [List.mem_singleton.mp hc2]
        exact digitChar_isDigit _

lemma foldl_natDigits (n : Nat) : ∀ acc,
    (natDigits n).foldl digitsStep acc = acc * 10 ^ (natDigits n).length + n := by
  induction n using Nat.strong_induction_on with
  | _ n ih =>
    intro acc
    by_cases h : n < 10
    · rw [natDigits_small n h]
      simp [digitsStep, digitVal_digitChar n h]
    · have hdiv : n / 10 < n := Nat.div_lt_self (by omega) (by omega)
      rw [natDigits_step n h, List.foldl_append, ih (n / 10) hdiv acc,
        List.length_append]
      simp only [List.foldl_cons, List.foldl_nil, List.length_singleton, digitsStep,
        digitVal_digitChar (n % 10) (by omega)]
      rw [pow_add, pow_one]
      have hexp : (acc * 10 ^ (natDigits (n / 10)).length + n / 10) * 10 =
          acc * (10 ^ (natDigits (n / 10)).length * 10) + n / 10 * 10 := by ring
      rw [hexp, Nat.add_assoc]
      congr 1
      omega

lemma parseDigits_append : ∀ (l rest : List Char) (acc : Nat),
    (∀ c ∈ l, c.isDigit = true) → nonDigitHead rest →
    parseDigits (l ++ rest) acc = (l.foldl digitsStep acc, rest)
  | [], rest, acc => fun _ hrest => by
    cases rest with
    | nil => rfl
    | cons c cs =>
      simp only [List.nil_append, List.foldl_nil, parseDigits]
      rw [if_neg (by simp [show c.isDigit = false from hrest])]
  | c :: l, rest, acc => fun hl hrest => by
    simp only [List.cons_append, parseDigits, List.foldl_cons, List.append_eq]
    rw [if_pos (hl c (List.mem_cons_self _ _)),
      parseDigits_append l rest _ (fun x hx => hl x (List.mem_cons_of_mem _ hx)) hrest]
    rfl

lemma parsePosNumber_append (l rest : List Char) (hne : l ≠ [])
    (hl : ∀ c ∈ l, c.isDigit = true) (hrest : nonDigitHead rest) :
    parsePosNumber (l ++ rest) = some (l.foldl digitsStep 0, rest) := by
  cases l with
  | nil => exact absurd rfl hne
  | cons c cs =>
    simp only [List.cons_append, parsePosNumber, List.append_eq]
    rw [if_pos (hl c (List.mem_cons_self _ _)),
      parseDigits_append cs rest _ (fun x hx => hl x (List.mem_cons_of_mem _ hx)) hrest]
    simp [digitsStep]

lemma parsePosNumber_natDigits (n : Nat) (rest : List Char) (hrest : nonDigitHead rest) :
    parsePosNumber (natDigits n ++ rest) = some (n, rest) := by
  rw [parsePosNumber_append _ _ (natDigits_ne_nil n) (natDigits_all_digit n) hrest,
    foldl_natDigits n 0]
  simp

lemma isDigit_ne (c x : Char) (h : c.isDigit = true) (hx : x.isDigit = false) : ¬ c = x := by
  rintro rfl
  rw [h] at hx
  exact absurd hx (by simp)

lemma parseNumber_serInt (n : Int) (rest : List Char) (hrest : nonDigitHead rest) :
    parseNumber (serInt n ++ rest) = some (n, rest) := by
  unfold serInt
  split_ifs with h
  · simp only [List.cons_append, parseNumber]
    rw [if_pos trivial, parsePosNumber_natDigits _ rest hrest]
    simp only [Option.map_some']
    congr 2
    omega
  · rcases hnd : natDigits n.toNat with _ | ⟨c, cs⟩
    · exact absurd hnd (natDigits_ne_nil _)
    · have hdig : c.isDigit = true :=
        natDigits_all_digit _ c (by rw [hnd]; exact List.mem_cons_self _ _)
      have hpp := parsePosNumber_natDigits n.toNat rest hrest
      rw [hnd] at hpp
      simp only [List.cons_append, parseNumber] at hpp ⊢
      rw [if_neg (isDigit_ne c '-' hdig (by decide)), hpp]
      simp only [Option.map_some']
      congr 2
      omega

lemma parseStringBody_quote (cs : List Char) : parseStringBody ('"' :: cs) = some ([], cs) := by
  conv_lhs => rw [parseStringBody.eq_def]
  norm_num

lemma parseStringBody_esc (e u : Char) (cs : List Char) (hu : unescapeChar e = some u) :
    parseStringBody ('\\' :: e :: cs) = (parseStringBody cs).map fun p => (u :: p.1, p.2) := by
  conv_lhs => rw [parseStringBody.eq_def]
  norm_num
  rw [if_neg (by decide), hu]

lemma parseStringBody_other (c : Char) (cs : List Char) (h1 : ¬ c = '"') (h2 : ¬ c = '\\') :
    parseStringBody (c :: cs) = (parseStringBody cs).map fun p => (c :: p.1, p.2) := by
  conv_lhs => rw [parseStringBody.eq_def]
  simp only [h1, h2, if_false]

lemma parseStringBody_escape : ∀ (s rest : List Char),
    parseStringBody (escapeList s ++ ('"' :: rest)) = some (s, rest)
  | [], rest => by
    show parseStringBody (escapeList [] ++ ('"' :: rest)) = some ([], rest)
    rw [show escapeList [] = [] from rfl, List.nil_append, parseStringBody_quote]
  | c :: s, rest => by
    have ih := parseStringBody_escape s rest
    have hesc : escapeList (c :: s) = escapeChar c ++ escapeList s := by
      simp [escapeList]
    rw [hesc, List.append_assoc]
    by_cases h1 : c = '"'
    · subst h1
      rw [show escapeChar '"' = ['\\', '"'] from rfl]
      rw [show ['\\', '"'] ++ (escapeList s ++ '"' :: rest) =
        '\\' :: '"' :: (escapeList s ++ '"' :: rest) from rfl]
      rw [parseStringBody_esc '"' '"' _ (by decide), ih]
      rfl
    · by_cases h2 : c = '\\'
      · subst h2
        rw [show escapeChar '\\' = ['\\', '\\'] from rfl]
        rw [show ['\\', '\\'] ++ (escapeList s ++ '"' :: rest) =
          '\\' :: '\\' :: (escapeList s ++ '"' :: rest) from rfl]
        rw [parseStringBody_esc '\\' '\\' _ (by decide), ih]
        rfl
      · by_cases h3 : c = '\n'
        · subst h3
          rw [show escapeChar '\n' = ['\\', 'n'] from rfl]
          rw [show ['\\', 'n'] ++ (escapeList s ++ '"' :: rest) =
            '\\' :: 'n' :: (escapeList s ++ '"' :: rest) from rfl]
          rw [parseStringBody_esc 'n' '\n' _ (by decide), ih]
          rfl
        · by_cases h4 : c = '\t'
          · subst h4
            rw [show escapeChar '\t' = ['\\', 't'] from rfl]
            rw [show ['\\', 't'] ++ (escapeList s ++ '"' :: rest) =
              '\\' :: 't' :: (escapeList s ++ '"' :: rest) from rfl]
            rw [parseStringBody_esc 't' '\t' _ (by decide), ih]
            rfl
          · by_cases h5 : c = '\r'
            · subst h5
              rw [show escapeChar '\r' = ['\\', 'r'] from rfl]
              rw [show ['\\', 'r'] ++ (escapeList s ++ '"' :: rest) =
                '\\' :: 'r' :: (escapeList s ++ '"' :: rest) from rfl]
              rw [parseStringBody_esc 'r' '\r' _ (by decide), ih]
              rfl
            · rw [show escapeChar c = [c] from by simp [escapeChar, h1, h2, h3, h4, h5]]
              rw [show [c] ++ (escapeList s ++ '"' :: rest) =
                c :: (escapeList s ++ '"' :: rest) from rfl]
              rw [parseStringBody_other c _ h1 h2, ih]
              rfl

lemma skipWs_cons (c : Char) (l : List Char) (h : isWsChar c = false) :
    skipWs (c :: l) = c :: l := by
  simp [skipWs, h]

lemma isWsChar_of_digit (c : Char) (h : c.isDigit = true) : isWsChar c = false := by
  cases hw : isWsChar c
  · rfl
  · exfalso
    simp only [isWsChar, Bool.or_eq_true, beq_iff_eq] at hw
    rcases hw with ((rfl | rfl) | rfl) | rfl <;> exact absurd h (by decide)

lemma startOk_props (c : Char) (h : startOk c) :
    isWsChar c = false ∧ ¬ c = ']' ∧ ¬ c = rbraceChar ∧ ¬ c = ',' ∧ ¬ c = ':' := by
  rcases h with rfl | rfl | rfl | rfl | rfl | rfl | rfl | hd
  · exact ⟨by decide, by decide, by decide, by decide, by decide⟩
  · exact ⟨by decide, by decide, by decide, by decide, by decide⟩
  · exact ⟨by decide, by decide, by decide, by decide, by decide⟩
  · exact ⟨by decide, by decide, by decide, by decide, by decide⟩
  · exact ⟨by decide, by decide, by decide, by decide, by decide⟩
  · exact ⟨by decide, by decide, by decide, by decide, by decide⟩
  · exact ⟨by decide, by decide, by decide, by decide, by decide⟩
  · exact ⟨isWsChar_of_digit c hd, isDigit_ne c _ hd (by decide),
      isDigit_ne c _ hd (by decide), isDigit_ne c _ hd (by decide),
      isDigit_ne c _ hd (by decide)⟩

lemma marshal_start (v : Json) : ∃ c cs, marshal v = c :: cs ∧ startOk c := by
  cases v with
  | null => exact ⟨'n', _, rfl, by unfold startOk; tauto⟩
  | bool b =>
    cases b
    · exact ⟨'f', _, rfl, by unfold startOk; tauto⟩
    · exact ⟨'t', _, rfl, by unfold startOk; tauto⟩
  | num n =>
    show ∃ c cs, serInt n = c :: cs ∧ startOk c
    unfold serInt
    split_ifs with h
    · exact ⟨'-', _, rfl, by unfold startOk; tauto⟩
    · rcases hnd : natDigits n.toNat with _ | ⟨c, cs⟩
      · exact absurd hnd (natDigits_ne_nil _)
      · refine ⟨c, cs, rfl, Or.inr (Or.inr (Or.inr (Or.inr (Or.inr (Or.inr (Or.inr ?_))))))⟩
        exact natDigits_all_digit _ c (by rw [hnd]; exact List.mem_cons_self _ _)
  | str s => exact ⟨'"', _, rfl, by unfold startOk; tauto⟩
  | arr xs => exact ⟨'[', _, rfl, by unfold startOk; tauto⟩
  | obj fs => exact ⟨lbraceChar, _, rfl, by unfold startOk; tauto⟩

lemma sepLike_nonDigit : ∀ rest, sepLike rest → nonDigitHead rest
  | [], _ => trivial
  | _ :: _, h => by
    rcases h with rfl | rfl | rfl <;> rfl

lemma sepLike_skipWs : ∀ rest, sepLike rest → skipWs rest = rest
  | [], _ => rfl
  | _ :: l, h => by
    rcases h with rfl | rfl | rfl <;> exact skipWs_cons _ l (by decide)

lemma parseValue_null (fuel : Nat) (rest : List Char) :
    parseValue (fuel + 1) ('n' :: 'u' :: 'l' :: 'l' :: rest) = some (Json.null, rest) := by
  conv_lhs => rw [parseValue.eq_def]
  simp +decide [skipWs, isWsChar]

lemma parseValue_true (fuel : Nat) (rest : List Char) :
    parseValue (fuel + 1) ('t' :: 'r' :: 'u' :: 'e' :: rest) = some (Json.bool true, rest) := by
  conv_lhs => rw [parseValue.eq_def]
  simp +decide [skipWs, isWsChar]

lemma parseValue_false (fuel : Nat) (rest : List Char) :
    parseValue (fuel + 1) ('f' :: 'a' :: 'l' :: 's' :: 'e' :: rest) =
      some (Json.bool false, rest) := by
  conv_lhs => rw [parseValue.eq_def]
  simp +decide [skipWs, isWsChar]

lemma parseValue_str (fuel : Nat) (cs : List Char) :
    parseValue (fuel + 1) ('"' :: cs) =
      (parseStringBody cs).map fun p => (Json.str (String.mk p.1), p.2) := by
  conv_lhs => rw [parseValue.eq_def]
  simp +decide [skipWs, isWsChar]

lemma parseValue_arrNil (fuel : Nat) (cs cs2 : List Char) (hsw : skipWs cs = ']' :: cs2) :
    parseValue (fuel + 1) ('[' :: cs) = some (Json.arr [], cs2) := by
  conv_lhs => rw [parseValue.eq_def]
  simp +decide [skipWs, isWsChar, hsw]

lemma parseValue_arrGo (fuel : Nat) (cs cs2 : List Char) (c2 : Char)
    (hsw : skipWs cs = c2 :: cs2) (hne : ¬ c2 = ']') :
    parseValue (fuel + 1) ('[' :: cs) = parseElems fuel (c2 :: cs2) [] := by
  conv_lhs => rw [parseValue.eq_def]
  simp +decide [skipWs, isWsChar, hsw, hne]

lemma parseValue_objNil (fuel : Nat) (cs cs2 : List Char) (hsw : skipWs cs = rbraceChar :: cs2) :
    parseValue (fuel + 1) (lbraceChar :: cs) = some (Json.obj [], cs2) := by
  conv_lhs => rw [parseValue.eq_def]
  simp +decide [skipWs, isWsChar, hsw]

lemma parseValue_objGo (fuel : Nat) (cs cs2 : List Char) (c2 : Char)
    (hsw : skipWs cs = c2 :: cs2) (hne : ¬ c2 = rbraceChar) :
    parseValue (fuel + 1) (lbraceChar :: cs) = parseFields fuel (c2 :: cs2) [] := by
  conv_lhs => rw [parseValue.eq_def]
  simp +decide [skipWs, isWsChar, hsw, hne]

lemma parseValue_num (fuel : Nat) (c : Char) (cs : List Char)
    (hws : isWsChar c = false) (h1 : ¬ c = '"') (h2 : ¬ c = '[') (h3 : ¬ c = lbraceChar)
    (h4 : ¬ c = 'n') (h5 : ¬ c = 't') (h6 : ¬ c = 'f') :
    parseValue (fuel + 1) (c :: cs) =
      (parseNumber (c :: cs)).map fun p => (Json.num p.1, p.2) := by
  have hsp : ¬ c = ' ' := by intro h; subst h; exact absurd hws (by decide)
  have htb : ¬ c = '\t' := by intro h; subst h; exact absurd hws (by decide)
  have hnl : ¬ c = '\n' := by intro h; subst h; exact absurd hws (by decide)
  have hcr : ¬ c = '\r' := by intro h; subst h; exact absurd hws (by decide)
  conv_lhs => rw [parseValue.eq_def]
  simp +decide [skipWs, isWsChar, hsp, htb, hnl, hcr, h1, h2, h3, h4, h5, h6]

lemma parseElems_comma (fuel : Nat) (input rest' : List Char) (acc : List Json) (v : Json)
    (hpv : parseValue fuel input = some (v, ',' :: rest')) :
    parseElems (fuel + 1) input acc = parseElems fuel rest' (acc ++ [v]) := by
  conv_lhs => rw [parseElems.eq_def]
  simp +decide [hpv, skipWs, isWsChar]

lemma parseElems_close (fuel : Nat) (input rest' : List Char) (acc : List Json) (v : Json)
    (hpv : parseValue fuel input = some (v, ']' :: rest')) :
    parseElems (fuel + 1) input acc = some (Json.arr (acc ++ [v]), rest') := by
  conv_lhs => rw [parseElems.eq_def]
  simp +decide [hpv, skipWs, isWsChar]

lemma parseFields_comma (fuel : Nat) (cs X rest' : List Char) (acc : List (String × Json))
    (kchars : List Char) (v : Json)
    (hk : parseStringBody cs = some (kchars, ':' :: X))
    (hv : parseValue fuel X = some (v, ',' :: rest')) :
    parseFields (fuel + 1) ('"' :: cs) acc =
      parseFields fuel rest' (insertField (String.mk kchars) v acc) := by
  conv_lhs => rw [parseFields.eq_def]
  simp +decide [hk, hv, skipWs, isWsChar]

lemma parseFields_close (fuel : Nat) (cs X rest' : List Char) (acc : List (String × Json))
    (kchars : List Char) (v : Json)
    (hk : parseStringBody cs = some (kchars, ':' :: X))
    (hv : parseValue fuel X = some (v, rbraceChar :: rest')) :
    parseFields (fuel + 1) ('"' :: cs) acc =
      some (Json.obj (insertField (String.mk kchars) v acc), rest') := by
  conv_lhs => rw [parseFields.eq_def]
  simp +decide [hk, hv, skipWs, isWsChar]

lemma jsonFuel_pos (v : Json) : 1 ≤ jsonFuel v := by
  cases v <;> simp [jsonFuel]

lemma string_eta (s : String) : String.mk s.data = s := rfl

theorem parse_marshal_roundtrip : ∀ fuel : Nat,
    (∀ (v : Json) (rest : List Char), Canonical v → jsonFuel v ≤ fuel → sepLike rest →
      parseValue fuel (marshal v ++ rest) = some (v, rest)) ∧
    (∀ (xs acc : List Json) (rest : List Char), xs ≠ [] →
      (∀ x ∈ xs, Canonical x) → fuelElems xs ≤ fuel →
      parseElems fuel (marshalElems xs ++ (']' :: rest)) acc =
        some (Json.arr (acc ++ xs), rest)) ∧
    (∀ (fs acc : List (String × Json)) (rest : List Char), fs ≠ [] →
      List.Pairwise (fun a b => keyLt a.1 b.1 = true) (acc ++ fs) →
      (∀ f ∈ fs, Canonical f.2) → fuelFields fs ≤ fuel →
      parseFields fuel (marshalFields fs ++ (rbraceChar :: rest)) acc =
        some (Json.obj (acc ++ fs), rest)) := by
  intro fuel
  induction fuel with
  | zero =>
    refine ⟨?_, ?_, ?_⟩
    · intro v rest _ hf _
      have := jsonFuel_pos v
      omega
    · intro xs acc rest hne _ hf
      cases xs with
      | nil => exact absurd rfl hne
      | cons x xs2 =>
        simp [fuelElems] at hf
    · intro fs acc rest hne _ _ hf
      cases fs with
      | nil => exact absurd rfl hne
      | cons g fs2 =>
        simp [fuelFields] at hf
  | succ f ih =>
    obtain ⟨ihV, ihE, ihF⟩ := ih
    refine ⟨?_, ?_, ?_⟩
    · -- parseValue round trip
      intro v rest hc hf hs
      cases v with
      | null =>
        rw [show marshal Json.null ++ rest = 'n' :: 'u' :: 'l' :: 'l' :: rest from rfl]
        exact parseValue_null f rest
      | bool b =>
        cases b
        · rw [show marshal (Json.bool false) ++ rest =
            'f' :: 'a' :: 'l' :: 's' :: 'e' :: rest from rfl]
          exact parseValue_false f rest
        · rw [show marshal (Json.bool true) ++ rest =
            't' :: 'r' :: 'u' :: 'e' :: rest from rfl]
          exact parseValue_true f rest
      | str s =>
        rw [show marshal (Json.str s) ++ rest =
          '"' :: (escapeList s.data ++ ('"' :: rest)) from by simp [marshal]]
        rw [parseValue_str, parseStringBody_escape]
        simp [string_eta]
      | num n =>
        have hnd : nonDigitHead rest := sepLike_nonDigit rest hs
        have hser := parseNumber_serInt n rest hnd
        by_cases hneg : n < 0
        · have hm : marshal (Json.num n) ++ rest = '-' :: (natDigits (-n).toNat ++ rest) := by
            simp [marshal, serInt, hneg]
          rw [hm]
          rw [show serInt n ++ rest = '-' :: (natDigits (-n).toNat ++ rest) from by
            simp [serInt, hneg]] at hser
          rw [parseValue_num f '-' _ (by decide) (by decide) (by decide) (by decide)
            (by decide) (by decide) (by decide), hser]
          rfl
        · rcases hnd2 : natDigits n.toNat with _ | ⟨c, cs⟩
          · exact absurd hnd2 (natDigits_ne_nil _)
          · have hdig : c.isDigit = true :=
              natDigits_all_digit _ c (by rw [hnd2]; exact List.mem_cons_self _ _)
            have hm : marshal (Json.num n) ++ rest = c :: (cs ++ rest) := by
              simp [marshal, serInt, hneg, hnd2]
            rw [hm]
            rw [show serInt n ++ rest = c :: (cs ++ rest) from by
              simp [serInt, hneg, hnd2]] at hser
            rw [parseValue_num f c _ (isWsChar_of_digit c hdig)
              (isDigit_ne c _ hdig (by decide)) (isDigit_ne c _ hdig (by decide))
              (isDigit_ne c _ hdig (by decide)) (isDigit_ne c _ hdig (by decide))
              (isDigit_ne c _ hdig (by decide)) (isDigit_ne c _ hdig (by decide)), hser]
            rfl
      | arr xs =>
        cases xs with
        | nil =>
          rw [show marshal (Json.arr []) ++ rest = '[' :: (']' :: rest) from rfl]
          exact parseValue_arrNil f _ rest (skipWs_cons ']' rest (by decide))
        | cons x xs2 =>
          have hcelems : ∀ y ∈ x :: xs2, Canonical y := by
            cases hc with
            | arr _ h => exact h
          have hfuel : fuelElems (x :: xs2) ≤ f := by
            simp [jsonFuel] at hf
            simp [fuelElems] at hf ⊢
            omega
          have hm : marshal (Json.arr (x :: xs2)) ++ rest =
              '[' :: (marshalElems (x :: xs2) ++ (']' :: rest)) := by
            simp [marshal]
          rw [hm]
          obtain ⟨c2, cs2, hmx, hok⟩ := marshal_start x
          obtain ⟨hnws, hnb1, hnb2, hnb3, hnb4⟩ := startOk_props c2 hok
          have htail : ∃ tail, marshalElems (x :: xs2) = c2 :: tail := by
            cases xs2 with
            | nil => exact ⟨cs2, by simp [marshalElems, hmx]⟩
            | cons y ys =>
              exact ⟨cs2 ++ ',' :: marshalElems (y :: ys), by simp [marshalElems, hmx]⟩
          obtain ⟨tail, htl⟩ := htail
          have hsw : skipWs (marshalElems (x :: xs2) ++ (']' :: rest)) =
              c2 :: (tail ++ (']' :: rest)) := by
            rw [htl]
            simp only [List.cons_append]
            exact skipWs_cons c2 _ hnws
          rw [parseValue_arrGo f _ _ c2 hsw hnb1]
          rw [show c2 :: (tail ++ (']' :: rest)) =
            marshalElems (x :: xs2) ++ (']' :: rest) from by rw [htl]; simp]
          have := ihE (x :: xs2) [] rest (by simp) hcelems hfuel
          simpa using this
      | obj fs =>
        cases fs with
        | nil =>
          rw [show marshal (Json.obj []) ++ rest = lbraceChar :: (rbraceChar :: rest) from rfl]
          exact parseValue_objNil f _ rest (skipWs_cons rbraceChar rest (by decide))
        | cons g fs2 =>
          obtain ⟨k, w⟩ := g
          have hsort : List.Pairwise (fun a b => keyLt a.1 b.1 = true) ((k, w) :: fs2) := by
            cases hc with
            | obj _ hs _ => exact hs
          have hcv : ∀ q ∈ (k, w) :: fs2, Canonical q.2 := by
            cases hc with
            | obj _ _ hv => exact hv
          have hfuel : fuelFields ((k, w) :: fs2) ≤ f := by
            simp [jsonFuel] at hf
            simp [fuelFields] at hf ⊢
            omega
          have hm : marshal (Json.obj ((k, w) :: fs2)) ++ rest =
              lbraceChar :: (marshalFields ((k, w) :: fs2) ++ (rbraceChar :: rest)) := by
            simp [marshal]
          rw [hm]
          have htail : ∃ tail, marshalFields ((k, w) :: fs2) = '"' :: tail := by
            cases fs2 with
            | nil => exact ⟨escapeList k.data ++ ('"' :: (':' :: marshal w)), by
                simp [marshalFields, serKey]⟩
            | cons g2 gs =>
              exact ⟨escapeList k.data ++ ('"' :: (':' :: (marshal w ++
                ',' :: marshalFields (g2 :: gs)))), by simp [marshalFields, serKey]⟩
          obtain ⟨tail, htl⟩ := htail
          have hsw : skipWs (marshalFields ((k, w) :: fs2) ++ (rbraceChar :: rest)) =
              '"' :: (tail ++ (rbraceChar :: rest)) := by
            rw [htl]
            simp only [List.cons_append]
            exact skipWs_cons '"' _ (by decide)
          rw [parseValue_objGo f _ _ '"' hsw (by decide)]
          rw [show '"' :: (tail ++ (rbraceChar :: rest)) =
            marshalFields ((k, w) :: fs2) ++ (rbraceChar :: rest) from by rw [htl]; simp]
          have := ihF ((k, w) :: fs2) [] rest (by simp) (by simpa using hsort) hcv hfuel
          simpa using this
    · -- parseElems round trip
      intro xs acc rest hne hc hf
      cases xs with
      | nil => exact absurd rfl hne
      | cons x xs2 =>
        have hcx : Canonical x := hc x (List.mem_cons_self _ _)
        cases xs2 with
        | nil =>
          have hfx : jsonFuel x ≤ f := by
            simp [fuelElems] at hf
            omega
          have hpv : parseValue f (marshal x ++ (']' :: rest)) = some (x, ']' :: rest) :=
            ihV x (']' :: rest) hcx hfx (Or.inr (Or.inl rfl))
          rw [show marshalElems [x] ++ (']' :: rest) = marshal x ++ (']' :: rest) from by
            simp [marshalElems]]
          rw [parseElems_close f _ rest acc x hpv]
        | cons y ys =>
          have hfx : jsonFuel x ≤ f ∧ fuelElems (y :: ys) ≤ f := by
            simp [fuelElems] at hf ⊢
            omega
          have hpv : parseValue f (marshal x ++
              (',' :: (marshalElems (y :: ys) ++ (']' :: rest)))) =
              some (x, ',' :: (marshalElems (y :: ys) ++ (']' :: rest))) :=
            ihV x _ hcx hfx.1 (Or.inl rfl)
          rw [show marshalElems (x :: y :: ys) ++ (']' :: rest) =
            marshal x ++ (',' :: (marshalElems (y :: ys) ++ (']' :: rest))) from by
            simp [marshalElems]]
          rw [parseElems_comma f _ _ acc x hpv]
          have := ihE (y :: ys) (acc ++ [x]) rest (by simp)
            (fun z hz => hc z (List.mem_cons_of_mem _ hz)) hfx.2
          rw [this]
          simp
    · -- parseFields round trip
      intro fs acc rest hne hsort hcv hf
      cases fs with
      | nil => exact absurd rfl hne
      | cons g fs2 =>
        obtain ⟨k, w⟩ := g
        have hcw : Canonical w := hcv (k, w) (List.mem_cons_self _ _)
        have hacc : ∀ a ∈ acc, keyLt a.1 k = true := by
          intro a ha
          have := (List.pairwise_append.mp hsort).2.2 a ha (k, w) (List.mem_cons_self _ _)
          exact this
        have hins : insertField k w acc = acc ++ [(k, w)] := insertField_append k w acc hacc
        cases fs2 with
        | nil =>
          have hfw : jsonFuel w ≤ f := by
            simp [fuelFields] at hf
            omega
          have hpv : parseValue f (marshal w ++ (rbraceChar :: rest)) =
              some (w, rbraceChar :: rest) :=
            ihV w _ hcw hfw (Or.inr (Or.inr rfl))
          have hk : parseStringBody (escapeList k.data ++
              ('"' :: (':' :: (marshal w ++ (rbraceChar :: rest))))) =
              some (k.data, ':' :: (marshal w ++ (rbraceChar :: rest))) :=
            parseStringBody_escape k.data _
          rw [show marshalFields [(k, w)] ++ (rbraceChar :: rest) =
            '"' :: (escapeList k.data ++ ('"' :: (':' :: (marshal w ++
              (rbraceChar :: rest))))) from by simp [marshalFields, serKey]]
          rw [parseFields_close f _ _ rest acc k.data w hk hpv]
          rw [string_eta, hins]
        | cons g2 gs =>
          obtain ⟨k2, w2⟩ := g2
          have hfw : jsonFuel w ≤ f ∧ fuelFields ((k2, w2) :: gs) ≤ f := by
            simp [fuelFields] at hf ⊢
            omega
          have hpv : parseValue f (marshal w ++ (',' :: (marshalFields ((k2, w2) :: gs) ++
              (rbraceChar :: rest)))) =
              some (w, ',' :: (marshalFields ((k2, w2) :: gs) ++ (rbraceChar :: rest))) :=
            ihV w _ hcw hfw.1 (Or.inl rfl)
          have hk : parseStringBody (escapeList k.data ++
              ('"' :: (':' :: (marshal w ++ (',' :: (marshalFields ((k2, w2) :: gs) ++
                (rbraceChar :: rest))))))) =
              some (k.data, ':' :: (marshal w ++ (',' :: (marshalFields ((k2, w2) :: gs) ++
                (rbraceChar :: rest))))) :=
            parseStringBody_escape k.data _
          rw [show marshalFields ((k, w) :: (k2, w2) :: gs) ++ (rbraceChar :: rest) =
            '"' :: (escapeList k.data ++ ('"' :: (':' :: (marshal w ++
              (',' :: (marshalFields ((k2, w2) :: gs) ++ (rbraceChar :: rest))))))) from by
            simp [marshalFields, serKey]]
          rw [parseFields_comma f _ _ _ acc k.data w hk hpv]
          rw [string_eta, hins]
          have hsort2 : List.Pairwise (fun a b => keyLt a.1 b.1 = true)
              ((acc ++ [(k, w)]) ++ ((k2, w2) :: gs)) := by
            have hshape : (acc ++ [(k, w)]) ++ ((k2, w2) :: gs) =
                acc ++ ((k, w) :: (k2, w2) :: gs) := by simp
            rw [hshape]
            exact hsort
          have := ihF ((k2, w2) :: gs) (acc ++ [(k, w)]) rest (by simp) hsort2
            (fun q hq => hcv q (List.mem_cons_of_mem _ hq)) hfw.2
          rw [this]
          simp

theorem marshal_inj (v w : Json) (hv : Canonical v) (hw : Canonical w)
    (h : marshal v = marshal w) : v = w := by
  have hF := parse_marshal_roundtrip (jsonFuel v + jsonFuel w)
  have h1 := hF.1 v [] hv (by omega) trivial
  have h2 := hF.1 w [] hw (by omega) trivial
  rw [List.append_nil] at h1 h2
  rw [h] at h1
  have h3 := h1.symm.trans h2
  have h4 : (v, ([] : List Char)) = (w, []) := Option.some.inj h3
  exact congrArg Prod.fst h4

lemma parseValue_succ (fuel : Nat) (input : List Char) :
    parseValue (fuel + 1) input =
      match skipWs input with
      | [] => none
      | c :: cs =>
        if c = '"' then (parseStringBody cs).map fun p => (Json.str (String.mk p.1), p.2)
        else if c = '[' then
          match skipWs cs with
          | [] => none
          | c2 :: cs2 =>
            if c2 = ']' then some (Json.arr [], cs2) else parseElems fuel (c2 :: cs2) []
        else if c = lbraceChar then
          match skipWs cs with
          | [] => none
          | c2 :: cs2 =>
            if c2 = rbraceChar then some (Json.obj [], cs2) else parseFields fuel (c2 :: cs2) []
        else if c = 'n' then
          match cs with
          | 'u' :: 'l' :: 'l' :: rest => some (Json.null, rest)
          | _ => none
        else if c = 't' then
          match cs with
          | 'r' :: 'u' :: 'e' :: rest => some (Json.bool true, rest)
          | _ => none
        else if c = 'f' then
          match cs with
          | 'a' :: 'l' :: 's' :: 'e' :: rest => some (Json.bool false, rest)
          | _ => none
        else (parseNumber (c :: cs)).map fun p => (Json.num p.1, p.2) := by
  rw [parseValue.eq_def]

lemma parseElems_succ (fuel : Nat) (input : List Char) (acc : List Json) :
    parseElems (fuel + 1) input acc =
      match parseValue fuel input with
      | none => none
      | some (v, rest) =>
        match skipWs rest with
        | [] => none
        | c :: cs =>
          if c = ',' then parseElems fuel cs (acc ++ [v])
          else if c = ']' then some (Json.arr (acc ++ [v]), cs)
          else none := by
  rw [parseElems.eq_def]

lemma parseFields_succ (fuel : Nat) (input : List Char) (acc : List (String × Json)) :
    parseFields (fuel + 1) input acc =
      match skipWs input with
      | [] => none
      | c :: cs =>
        if c = '"' then
          match parseStringBody cs with
          | none => none
          | some (kchars, rest1) =>
            match skipWs rest1 with
            | [] => none
            | c2 :: cs2 =>
              if c2 = ':' then
                match parseValue fuel cs2 with
                | none => none
                | some (v, rest3) =>
                  match skipWs rest3 with
                  | [] => none
                  | c3 :: cs3 =>
                    if c3 = ',' then parseFields fuel cs3 (insertField (String.mk kchars) v acc)
                    else if c3 = rbraceChar then
                      some (Json.obj (insertField (String.mk kchars) v acc), cs3)
                    else none
              else none
        else none := by
  rw [parseFields.eq_def]

theorem canonical_of_parse : ∀ fuel : Nat,
    (∀ (input : List Char) (v : Json) (rest : List Char),
      parseValue fuel input = some (v, rest) → Canonical v) ∧
    (∀ (input : List Char) (acc : List Json) (v : Json) (rest : List Char),
      (∀ x ∈ acc, Canonical x) →
      parseElems fuel input acc = some (v, rest) → Canonical v) ∧
    (∀ (input : List Char) (acc : List (String × Json)) (v : Json) (rest : List Char),
      List.Pairwise (fun a b => keyLt a.1 b.1 = true) acc →
      (∀ q ∈ acc, Canonical q.2) →
      parseFields fuel input acc = some (v, rest) → Canonical v) := by
  intro fuel
  induction fuel with
  | zero =>
    refine ⟨?_, ?_, ?_⟩
    · intro input v rest h
      exact absurd h (by rw [show parseValue 0 input = none from rfl]; simp)
    · intro input acc v rest _ h
      exact absurd h (by rw [show parseElems 0 input acc = none from rfl]; simp)
    · intro input acc v rest _ _ h
      exact absurd h (by rw [show parseFields 0 input acc = none from rfl]; simp)
  | succ f ih =>
    obtain ⟨ihV, ihE, ihF⟩ := ih
    refine ⟨?_, ?_, ?_⟩
    · intro input v rest h
      rw [parseValue_succ] at h
      split at h
      · exact absurd h (by simp)
      · split_ifs at h with h1 h2 h3 h4 h5 h6
        · rcases hps : parseStringBody _ with _ | p
          · rw [hps] at h
            simp at h
          · rw [hps] at h
            simp only [Option.map_some'] at h
            obtain ⟨hv, -⟩ := Prod.mk.injEq .. ▸ Option.some.inj h
            exact hv ▸ Canonical.str _
        · split at h
          · exact absurd h (by simp)
          · split_ifs at h with hbr
            · obtain ⟨hv, -⟩ := Prod.mk.injEq .. ▸ Option.some.inj h
              exact hv ▸ Canonical.arr [] (by simp)
            · exact ihE _ [] v rest (by simp) h
        · split at h
          · exact absurd h (by simp)
          · split_ifs at h with hbr
            · obtain ⟨hv, -⟩ := Prod.mk.injEq .. ▸ Option.some.inj h
              exact hv ▸ Canonical.obj [] (by simp) (by simp)
            · exact ihF _ [] v rest (by simp) (by simp) h
        · split at h
          · obtain ⟨hv, -⟩ := Prod.mk.injEq .. ▸ Option.some.inj h
            exact hv ▸ Canonical.null
          · exact absurd h (by simp)
        · split at h
          · obtain ⟨hv, -⟩ := Prod.mk.injEq .. ▸ Option.some.inj h
            exact hv ▸ Canonical.bool true
          · exact absurd h (by simp)
        · split at h
          · obtain ⟨hv, -⟩ := Prod.mk.injEq .. ▸ Option.some.inj h
            exact hv ▸ Canonical.bool false
          · exact absurd h (by simp)
        · rcases hpn : parseNumber _ with _ | p
          · rw [hpn] at h
            simp at h
          · rw [hpn] at h
            simp only [Option.map_some'] at h
            obtain ⟨hv, -⟩ := Prod.mk.injEq .. ▸ Option.some.inj h
            exact hv ▸ Canonical.num _
    · intro input acc v rest hacc h
      rw [parseElems_succ] at h
      split at h
      · exact absurd h (by simp)
      · rename_i x rest1 heq
        have hcx : Canonical x := ihV _ _ _ heq
        split at h
        · exact absurd h (by simp)
        · split_ifs at h with hcomma hclose
          · exact ihE _ (acc ++ [x]) v rest (by
              intro z hz
              rcases List.mem_append.mp hz with hz2 | hz2
              · exact hacc z hz2
              · rw [List.mem_singleton.mp hz2]
                exact hcx) h
          · obtain ⟨hv, -⟩ := Prod.mk.injEq .. ▸ Option.some.inj h
            refine hv ▸ Canonical.arr _ ?_
            intro z hz
            rcases List.mem_append.mp hz with hz2 | hz2
            · exact hacc z hz2
            · rw [List.mem_singleton.mp hz2]
              exact hcx
    · intro input acc v rest hsorted hacc h
      rw [parseFields_succ] at h
      split at h
      · exact absurd h (by simp)
      · split_ifs at h with hq
        · split at h
          · exact absurd h (by simp)
          · rename_i kchars rest1 hkeq
            split at h
            · exact absurd h (by simp)
            · split_ifs at h with hcolon
              · split at h
                · exact absurd h (by simp)
                · rename_i w rest3 hweq
                  have hcw : Canonical w := ihV _ _ _ hweq
                  have hsorted2 := insertField_sorted (String.mk kchars) w acc hsorted
                  have hacc2 : ∀ q ∈ insertField (String.mk kchars) w acc,
                      Canonical q.2 := by
                    intro q hqmem
                    rcases mem_insertField _ _ _ _ hqmem with rfl | hq2
                    · exact hcw
                    · exact hacc q hq2
                  split at h
                  · exact absurd h (by simp)
                  · split_ifs at h with hcomma2 hclose2
                    · exact ihF _ _ v rest hsorted2 hacc2 h
                    · obtain ⟨hv, -⟩ := Prod.mk.injEq .. ▸ Option.some.inj h
                      exact hv ▸ Canonical.obj _ hsorted2 hacc2

lemma canonical_of_parseJson (b : String) (v : Json) (h : parseJson b = some v) :
    Canonical v := by
  unfold parseJson at h
  split at h
  · rename_i v0 rest heq
    split_ifs at h with htr
    obtain rfl : v0 = v := Option.some.inj h
    exact (canonical_of_parse _).1 _ _ _ heq
  · exact absurd h (by simp)

lemma canonicalC8 : Canonical jsonC8 := by
  unfold jsonC8
  refine Canonical.obj _ ?_ ?_
  · refine List.Pairwise.cons ?_ (List.pairwise_singleton ..)
    intro b hb
    rw [List.mem_singleton.mp hb]
    decide
  · intro f hf
    rcases List.mem_cons.mp hf with rfl | hf2
    · exact Canonical.num _
    · rw [List.mem_singleton.mp hf2]
      exact Canonical.num _

/-- C8: the structured body assertion compares the captured body and the
expected value by deserializing and canonically re-serializing, not by raw
bytes: any body text that parses to the expected structured value passes
(whatever its whitespace or key order), a body that is not valid JSON fails
through the assertion channel, and a body denoting a different structured
value fails through the assertion channel (the expected value, a Go map
value, is canonical).  The third part rests on `marshal_inj`: canonical
serialization is injective on canonical values. -/
theorem bodyAssertion_structural :
    (∀ (s : Server) (i : Nat) (req : CapturedRequest) (expected : Json),
      Server.GetRequest s i = some req →
      parseJson req.bodyContent = some expected →
      Server.AssertRequestBodyJSON s i expected = AssertResult.pass) ∧
    (∀ (s : Server) (i : Nat) (req : CapturedRequest) (expected : Json),
      Server.GetRequest s i = some req →
      parseJson req.bodyContent = none →
      Server.AssertRequestBodyJSON s i expected = AssertResult.fatalUnmarshal) ∧
    (∀ (s : Server) (i : Nat) (req : CapturedRequest) (expected actual : Json),
      Server.GetRequest s i = some req →
      parseJson req.bodyContent = some actual →
      Canonical expected → actual ≠ expected →
      Server.AssertRequestBodyJSON s i expected = AssertResult.failMismatch) := by
  refine ⟨?_, ?_, ?_⟩
  · intro s i req expected hget hparse
    simp [Server.AssertRequestBodyJSON, hget, hparse]
  · intro s i req expected hget hparse
    simp [Server.AssertRequestBodyJSON, hget, hparse]
  · intro s i req expected actual hget hparse hcan hne
    simp only [Server.AssertRequestBodyJSON, hget, hparse]
    rw [if_neg]
    intro hmm
    exact hne (marshal_inj actual expected (canonical_of_parseJson _ _ hparse) hcan hmm.symm)

/-- C8 witness: against the concrete expected object, a body with scrambled
whitespace and key order passes, an invalid body fails, and a body denoting a
different value fails. -/
theorem bodyAssertion_structural_witness :
    Server.AssertRequestBodyJSON serverC8 0 jsonC8 = AssertResult.pass ∧
    Server.AssertRequestBodyJSON serverC8 1 jsonC8 = AssertResult.fatalUnmarshal ∧
    Server.AssertRequestBodyJSON serverC8 2 jsonC8 = AssertResult.failMismatch :=
  ⟨bodyAssertion_structural.1 serverC8 0 reqC8a jsonC8 rfl rfl,
   bodyAssertion_structural.2.1 serverC8 1 reqC8b jsonC8 rfl rfl,
   bodyAssertion_structural.2.2 serverC8 2 reqC8c jsonC8 (Json.arr [Json.num 1, Json.num 2])
     rfl rfl canonicalC8 (fun h => Json.noConfusion h)⟩
